import Mathlib

/-!
Verification of the ICS → Google Calendar one-way synchronizer (src/sync.py).

The development shallowly embeds the reconciliation core of the program:

* the Python date / datetime values that flow through the feed are modelled by
  `PyTime` (a calendar date counted in days since 1970-01-01, or a wall-clock
  datetime counted in seconds since 1970-01-01T00:00:00 together with an
  optional fixed UTC offset carrying the timezone name string);
* the remote calendar service is modelled by an explicit store
  (`RemoteState`, google id → event payload) together with an `Oracle`
  deciding success or failure of each remote call and the result of
  occurrence-expansion queries; fresh event ids are allocated from a counter,
  matching the service's guarantee that event ids are unique;
* `sync_to_google` is a pure function of the parsed feed, the remote store and
  the oracle; it returns all counters of the Python function plus the full
  trace of remote calls issued (`CallEv`, every call with its outcome).

Instance patches (`events().patch` on a single occurrence id) are modelled as
trace-only operations: they do not change the uid/syncMarker tagging of the
series events, which is all the remote index builder reads.
-/

set_option maxRecDepth 20000

/-! ## Time model -/

/-- A fixed-offset timezone as Python's `tzinfo`: offset east of UTC in
seconds, plus the name string that `str(tzinfo)` yields. -/
structure TzInfo where
  off : Int
  name : String
  deriving DecidableEq

/-- Python `datetime.datetime`: wall-clock reading in seconds since the epoch
of the wall clock itself, plus an optional timezone. `tzinfo = none` is a
naive datetime. -/
structure PyDateTime where
  wall : Int
  tzinfo : Option TzInfo
  deriving DecidableEq

/-- A feed time value: all-day `date` (days since 1970-01-01) or `datetime`. -/
inductive PyTime where
  | date (days : Int)
  | dateTime (dt : PyDateTime)
  deriving DecidableEq

/-- `hasattr(dt, "hour")`: true exactly for datetimes. -/
def PyTime.hasHour : PyTime → Bool
  | .date _ => false
  | .dateTime _ => true

/-- UTC instant of a datetime under the convention of
`normalize_datetime_for_comparison`: naive values are taken as UTC. -/
def pyNormUtc (dt : PyDateTime) : Int :=
  match dt.tzinfo with
  | none => dt.wall
  | some tz => dt.wall - tz.off

/-- `normalize_datetime_for_comparison` from src/sync.py: dates unchanged,
naive datetimes stamped as UTC, aware datetimes converted with `astimezone`. -/
def normalize_datetime_for_comparison : PyTime → PyTime
  | .date d => .date d
  | .dateTime dt =>
    match dt.tzinfo with
    | none => .dateTime ⟨dt.wall, some ⟨0, "UTC"⟩⟩
    | some tz => .dateTime ⟨dt.wall - tz.off, some ⟨0, "UTC"⟩⟩

/-! ## Calendar formatting (`strftime`) -/

/-- Civil (year, month, day) from days since 1970-01-01
(standard era-based conversion, divisions all on nonnegative values). -/
def civilFromDays (z : Int) : Int × Int × Int :=
  let z' := z + 719468
  let era := Int.ediv z' 146097
  let doe := z' - era * 146097
  let yoe := Int.ediv (doe - Int.ediv doe 1460 + Int.ediv doe 36524 - Int.ediv doe 146096) 365
  let y := yoe + era * 400
  let doy := doe - (365 * yoe + Int.ediv yoe 4 - Int.ediv yoe 100)
  let mp := Int.ediv (5 * doy + 2) 153
  let d := doy - Int.ediv (153 * mp + 2) 5 + 1
  let m := mp + (if mp < 10 then 3 else -9)
  (y + (if m ≤ 2 then 1 else 0), m, d)

/-- Left-pad the decimal of `n` with zeros to width `w`. -/
def pad (w : Nat) (n : Int) : String :=
  let s := toString n
  if s.length < w then String.mk (List.replicate (w - s.length) '0') ++ s else s

/-- `strftime("%Y%m%d")` of a civil date given as days since the epoch. -/
def fmtDate8 (days : Int) : String :=
  let c := civilFromDays days
  pad 4 c.1 ++ pad 2 c.2.1 ++ pad 2 c.2.2

/-- `strftime("%Y%m%dT%H%M%S")` of a wall-clock reading in seconds. -/
def fmtStamp (secs : Int) : String :=
  let days := Int.ediv secs 86400
  let sod := Int.emod secs 86400
  fmtDate8 days ++ "T" ++ pad 2 (Int.ediv sod 3600) ++
    pad 2 (Int.emod (Int.ediv sod 60) 60) ++ pad 2 (Int.emod sod 60)

/-- Wall-clock calendar date (days since epoch) of a time value. -/
def PyTime.wallDays : PyTime → Int
  | .date d => d
  | .dateTime dt => Int.ediv dt.wall 86400

/-- `format_exdate` from src/sync.py. -/
def format_exdate (exdt : PyTime) (is_all_day : Bool) : String :=
  if is_all_day || !exdt.hasHour then
    "EXDATE;VALUE=DATE:" ++ fmtDate8 exdt.wallDays
  else
    match exdt with
    | .date d => "EXDATE;VALUE=DATE:" ++ fmtDate8 d
    | .dateTime dt =>
      let u : Int :=
        match dt.tzinfo with
        | some tz => dt.wall - tz.off
        | none => dt.wall
      "EXDATE:" ++ fmtStamp u ++ "Z"

/-- Does the string end in the character `Z`? -/
def endsZ (s : String) : Bool := s.data.getLast? == some 'Z'

/-! ## Timezone-name mapping and the Google payload -/

/-- Is `pat` a prefix of `s` (character lists)? -/
def charsHasPre : List Char → List Char → Bool
  | [], _ => true
  | _ :: _, [] => false
  | a :: ps, b :: ss => a == b && charsHasPre ps ss

/-- Does `s` contain `pat` as a contiguous substring (character lists)? -/
def charsHasSub (pat : List Char) : List Char → Bool
  | [] => charsHasPre pat []
  | c :: ss => charsHasPre pat (c :: ss) || charsHasSub pat ss

/-- Python `key in s` on strings. -/
def strHasSub (s pat : String) : Bool := charsHasSub pat.toList s.toList

/-- `get_timezone_name` from src/sync.py: substring-match the tzinfo name
against a small table, defaulting to UTC. -/
def get_timezone_name (dt : PyDateTime) : String :=
  match dt.tzinfo with
  | none => "UTC"
  | some tz =>
    if strHasSub tz.name "Europe/Moscow" then "Europe/Moscow"
    else if strHasSub tz.name "Russian Standard Time" then "Europe/Moscow"
    else if strHasSub tz.name "China Standard Time" then "Asia/Shanghai"
    else if strHasSub tz.name "UTC" then "UTC"
    else "UTC"

/-- A Google point-in-time field: `{"date": ...}` or
`{"dateTime": ..., "timeZone": ...}`. -/
inductive GTime where
  | gdate (days : Int)
  | gdateTime (dt : PyDateTime) (timeZone : String)
  deriving DecidableEq

/-- `dt_to_google` from src/sync.py. -/
def dt_to_google : PyTime → GTime
  | .dateTime dt => .gdateTime dt (get_timezone_name dt)
  | .date d => .gdate d

/-! ## Feed model and normalization (`fetch_ics_events`) -/

/-- The canonical normalized feed entry built by `fetch_ics_events`. -/
structure IcsEvent where
  uid : String
  summary : String
  description : String
  location : String
  start : PyTime
  end_ : PyTime
  rrule : Option String
  exdate : List PyTime
  recurrence_id : Option PyTime
  deriving DecidableEq

/-- A raw parsed VEVENT component as the icalendar library hands it over. -/
structure RawComponent where
  uid : Option String
  summary : Option String
  description : Option String
  location : Option String
  dtstart : Option PyTime
  dtend : Option PyTime
  rrule : Option String
  exdate : List PyTime
  recurrence_id : Option PyTime

/-- The per-component normalization step of `fetch_ics_events`
(src/sync.py lines 72-117): entries without DTSTART are dropped; a missing
DTEND defaults to the start. -/
def normalizeComponent (c : RawComponent) : Option IcsEvent :=
  match c.dtstart with
  | none => none
  | some start =>
    some { uid := c.uid.getD "", summary := c.summary.getD "No Title",
           description := c.description.getD "", location := c.location.getD "",
           start := start, end_ := c.dtend.getD start,
           rrule := c.rrule, exdate := c.exdate,
           recurrence_id := c.recurrence_id }

/-- `fetch_ics_events` over the list of VEVENT components of the feed. -/
def fetch_ics_events (cs : List RawComponent) : List IcsEvent :=
  cs.filterMap normalizeComponent

/-! ## Remote payloads -/

def SYNC_MARKER : String := "exchange-sync"

/-- The event body pushed by pass 1 (title, times, tagging slot, recurrence
block). -/
structure GoogleEvent where
  summary : String
  description : String
  location : String
  start : GTime
  end_ : GTime
  uid : String
  syncMarker : String
  recurrence : Option (List String)
  deriving DecidableEq

/-- The partial body pushed by pass 2 onto a resolved occurrence. -/
structure PatchBody where
  summary : String
  description : String
  location : String
  start : GTime
  end_ : GTime
  deriving DecidableEq

/-- Build the Google payload for one master (src/sync.py lines 247-267). -/
def buildGoogleEvent (uid : String) (e : IcsEvent) : GoogleEvent :=
  let is_all_day := !e.start.hasHour
  { summary := e.summary, description := e.description, location := e.location,
    start := dt_to_google e.start, end_ := dt_to_google e.end_,
    uid := uid, syncMarker := SYNC_MARKER,
    recurrence :=
      match e.rrule with
      | some r => some (("RRULE:" ++ r) :: e.exdate.map (fun x => format_exdate x is_all_day))
      | none => none }

/-- Build the partial payload for one exception occurrence
(src/sync.py lines 319-325). -/
def buildPatchBody (e : IcsEvent) : PatchBody :=
  { summary := e.summary, description := e.description, location := e.location,
    start := dt_to_google e.start, end_ := dt_to_google e.end_ }

/-! ## Occurrence resolution (`find_instance_event_id`) -/

/-- An aware datetime as parsed back from a Google RFC3339 string. -/
structure AwareDT where
  wall : Int
  off : Int
  deriving DecidableEq

/-- A Google instance start descriptor: a `date` or a `dateTime` field. -/
structure GStart where
  date : Option Int
  dateTime : Option AwareDT
  deriving DecidableEq

/-- One element of an occurrence-expansion response. -/
structure GInstance where
  id : String
  originalStartTime : Option GStart
  start : Option GStart
  deriving DecidableEq

/-- `instance.get("originalStartTime", instance.get("start", {}))`. -/
def gEffStart (inst : GInstance) : GStart :=
  inst.originalStartTime.getD (inst.start.getD ⟨none, none⟩)

/-- The per-instance matching test of the loop in `find_instance_event_id`
(src/sync.py lines 175-193): exact date equality for all-day targets;
for timed targets, the instance's original start converted to UTC must lie
strictly within 120 seconds of the (normalized) target. -/
def matchesInstance (is_all_day : Bool) (original_start_dt : PyTime)
    (target_dt : PyTime) (inst : GInstance) : Bool :=
  let st := gEffStart inst
  if is_all_day then
    match original_start_dt, st.date with
    | .date d, some idate => idate == d
    | _, _ => false
  else
    match st.dateTime, target_dt with
    | some a, .dateTime td =>
      decide (Int.natAbs ((a.wall - a.off) - pyNormUtc td) < 120)
    | _, _ => false

/-- First matching instance id, in response order. -/
def firstMatchId (is_all_day : Bool) (orig target : PyTime) : List GInstance → Option String
  | [] => none
  | inst :: rest =>
    if matchesInstance is_all_day orig target inst then some inst.id
    else firstMatchId is_all_day orig target rest

/-- The search window of `find_instance_event_id` (src/sync.py lines 158-164):
`[target date 00:00 UTC, target date + 1 day 00:00 UTC)` for all-day targets,
`[target − 1 day, target + 1 day]` for timed targets. -/
def searchWindow (original_start_dt : PyTime) (target_dt : PyTime) : PyDateTime × PyDateTime :=
  match original_start_dt with
  | .date d => (⟨d * 86400, some ⟨0, "UTC"⟩⟩, ⟨(d + 1) * 86400, some ⟨0, "UTC"⟩⟩)
  | .dateTime _ =>
    match target_dt with
    | .dateTime td => (⟨td.wall - 86400, td.tzinfo⟩, ⟨td.wall + 86400, td.tzinfo⟩)
    | .date d => (⟨d * 86400, some ⟨0, "UTC"⟩⟩, ⟨(d + 1) * 86400, some ⟨0, "UTC"⟩⟩)

/-- One remote call together with its outcome, as recorded in the run trace. -/
inductive CallEv where
  | insert (body : GoogleEvent) (result : Option String)
  | update (eventId : String) (body : GoogleEvent) (result : Option String)
  | patch (eventId : String) (body : PatchBody) (ok : Bool)
  | delete (eventId : String) (ok : Bool)
  | instances (eventId : String) (timeMin timeMax : PyDateTime) (result : Option (List GInstance))
  deriving DecidableEq

/-- `find_instance_event_id` from src/sync.py: issue the expansion query over
the search window and return the first matching instance id; a failed query is
treated as not-found.  The second component is the trace record of the query. -/
def find_instance_event_id
    (instRes : String → PyDateTime → PyDateTime → Option (List GInstance))
    (recurring_event_id : String) (original_start_dt : PyTime) :
    Option String × CallEv :=
  let target_dt := normalize_datetime_for_comparison original_start_dt
  let is_all_day := !original_start_dt.hasHour
  let w := searchWindow original_start_dt target_dt
  let res := instRes recurring_event_id w.1 w.2
  (match res with
   | none => none
   | some items => firstMatchId is_all_day original_start_dt target_dt items,
   CallEv.instances recurring_event_id w.1 w.2 res)

/-! ## Python dict as an association list (insertion order, last write wins) -/

/-- Dict lookup. -/
def dlookup {α : Type} : List (String × α) → String → Option α
  | [], _ => none
  | p :: t, k => if p.1 = k then some p.2 else dlookup t k

/-- Dict assignment: overwrite in place, else append. -/
def dinsert {α : Type} : List (String × α) → String → α → List (String × α)
  | [], k, v => [(k, v)]
  | p :: t, k, v => if p.1 = k then (k, v) :: t else p :: dinsert t k v

/-! ## The remote calendar store -/

/-- Fresh event ids as the service allocates them. -/
def freshId (n : Nat) : String := "gid" ++ toString n

/-- The remote calendar: event rows (google id → payload) plus the service's
id-allocation counter. -/
structure RemoteState where
  events : List (String × GoogleEvent)
  counter : Nat
  deriving DecidableEq

/-- A successful `events().insert`: allocate a fresh id, append the row. -/
def insertEv (s : RemoteState) (body : GoogleEvent) : RemoteState :=
  { events := s.events ++ [(freshId s.counter, body)], counter := s.counter + 1 }

/-- A successful `events().update`: replace the payload stored under `eid`. -/
def updateEv (s : RemoteState) (eid : String) (body : GoogleEvent) : RemoteState :=
  { events := s.events.map (fun p => if p.1 = eid then (eid, body) else p),
    counter := s.counter }

/-- A successful `events().delete`. -/
def deleteEv (s : RemoteState) (eid : String) : RemoteState :=
  { events := s.events.filter (fun p => decide (p.1 ≠ eid)), counter := s.counter }

/-- Outcome model of the remote service: which calls succeed, and what an
occurrence-expansion query returns (`none` models an HttpError). -/
structure Oracle where
  insertOk : GoogleEvent → Bool
  updateOk : String → GoogleEvent → Bool
  patchOk : String → PatchBody → Bool
  deleteOk : String → Bool
  instancesRes : String → PyDateTime → PyDateTime → Option (List GInstance)

/-! ## Remote index builder (src/sync.py lines 215-233) -/

/-- One step of building `existing_events`: keep only rows tagged with the
sync marker whose private `uid` is truthy (non-empty). -/
def indexStep (acc : List (String × String)) (p : String × GoogleEvent) : List (String × String) :=
  if p.2.syncMarker = SYNC_MARKER ∧ p.2.uid ≠ "" then dinsert acc p.2.uid p.1 else acc

def indexFold : List (String × GoogleEvent) → List (String × String) → List (String × String)
  | [], acc => acc
  | p :: t, acc => indexFold t (indexStep acc p)

/-- `existing_events` as a uid → google-id dict. -/
def buildIndex (s : RemoteState) : List (String × String) :=
  indexFold s.events []

/-! ## Splitting the feed (src/sync.py lines 202-211) -/

/-- `master_events`: entries without a recurrence id, keyed by uid,
last write wins. -/
def buildMasters : List IcsEvent → List (String × IcsEvent) → List (String × IcsEvent)
  | [], acc => acc
  | e :: t, acc =>
    if e.recurrence_id.isSome then buildMasters t acc
    else buildMasters t (dinsert acc e.uid e)

def masterList (evs : List IcsEvent) : List (String × IcsEvent) := buildMasters evs []

def masterUids (evs : List IcsEvent) : List String := (masterList evs).map Prod.fst

/-- `exception_events`: entries with a recurrence id, in feed order. -/
def exceptionList (evs : List IcsEvent) : List IcsEvent :=
  evs.filter (fun e => e.recurrence_id.isSome)

/-! ## Pass 1: master reconciliation (src/sync.py lines 235-292) -/

structure P1 where
  current_uids : List String
  created : Nat
  updated : Nat
  errors : Nat
  uid_to_google_id : List (String × String)
  calls : List CallEv
  remote : RemoteState

/-- Reconcile one master: update when the uid is indexed, else create;
count an error on failure. -/
def pass1Step (insOk : GoogleEvent → Bool) (updOk : String → GoogleEvent → Bool)
    (index : List (String × String)) (st : P1) (u : String) (e : IcsEvent) : P1 :=
  let st1 := { st with current_uids := st.current_uids ++ [u] }
  let ge := buildGoogleEvent u e
  match dlookup index u with
  | some gid =>
    if updOk gid ge then
      { st1 with calls := st1.calls ++ [CallEv.update gid ge (some gid)],
                 remote := updateEv st1.remote gid ge,
                 uid_to_google_id := dinsert st1.uid_to_google_id u gid,
                 updated := st1.updated + 1 }
    else
      { st1 with calls := st1.calls ++ [CallEv.update gid ge none],
                 errors := st1.errors + 1 }
  | none =>
    if insOk ge then
      { st1 with calls := st1.calls ++ [CallEv.insert ge (some (freshId st1.remote.counter))],
                 remote := insertEv st1.remote ge,
                 uid_to_google_id := dinsert st1.uid_to_google_id u (freshId st1.remote.counter),
                 created := st1.created + 1 }
    else
      { st1 with calls := st1.calls ++ [CallEv.insert ge none],
                 errors := st1.errors + 1 }

def pass1 (insOk : GoogleEvent → Bool) (updOk : String → GoogleEvent → Bool)
    (index : List (String × String)) : List (String × IcsEvent) → P1 → P1
  | [], st => st
  | (u, e) :: rest, st => pass1 insOk updOk index rest (pass1Step insOk updOk index st u e)

/-- The post-pass-1 merge (src/sync.py lines 289-292): add every indexed uid
not already covered. -/
def mergeIndex : List (String × String) → List (String × String) → List (String × String)
  | m, [] => m
  | m, (u, g) :: rest =>
    mergeIndex (if (dlookup m u).isSome then m else dinsert m u g) rest

/-! ## Pass 2: exception reconciliation (src/sync.py lines 294-336) -/

structure P2 where
  exceptions_updated : Nat
  exceptions_errors : Nat
  calls : List CallEv

/-- Reconcile one exception occurrence: resolve the parent series id, resolve
the occurrence, patch it; each failure mode counts one exception error. -/
def pass2Step (patOk : String → PatchBody → Bool)
    (instRes : String → PyDateTime → PyDateTime → Option (List GInstance))
    (u2g : List (String × String)) (st : P2) (e : IcsEvent) : P2 :=
  let rec_id := e.recurrence_id.getD (PyTime.date 0)
  match dlookup u2g e.uid with
  | none => { st with exceptions_errors := st.exceptions_errors + 1 }
  | some pid =>
    if pid = "" then { st with exceptions_errors := st.exceptions_errors + 1 }
    else
      let fi := find_instance_event_id instRes pid rec_id
      let st1 := { st with calls := st.calls ++ [fi.2] }
      match fi.1 with
      | none => { st1 with exceptions_errors := st1.exceptions_errors + 1 }
      | some iid =>
        if iid = "" then { st1 with exceptions_errors := st1.exceptions_errors + 1 }
        else
          if patOk iid (buildPatchBody e) then
            { st1 with calls := st1.calls ++ [CallEv.patch iid (buildPatchBody e) true],
                       exceptions_updated := st1.exceptions_updated + 1 }
          else
            { st1 with calls := st1.calls ++ [CallEv.patch iid (buildPatchBody e) false],
                       exceptions_errors := st1.exceptions_errors + 1 }

def pass2 (patOk : String → PatchBody → Bool)
    (instRes : String → PyDateTime → PyDateTime → Option (List GInstance))
    (u2g : List (String × String)) : List IcsEvent → P2 → P2
  | [], st => st
  | e :: rest, st => pass2 patOk instRes u2g rest (pass2Step patOk instRes u2g st e)

/-! ## Deletion sweep (src/sync.py lines 338-349) -/

structure SweepSt where
  deleted : Nat
  calls : List CallEv
  remote : RemoteState

/-- Sweep one indexed uid: delete its event when the uid was not seen among
this run's masters; a failed delete is only logged (no counter). -/
def sweepStep (delOk : String → Bool) (cur : List String) (st : SweepSt)
    (u g : String) : SweepSt :=
  if u ∈ cur then st
  else if delOk g then
    { deleted := st.deleted + 1, calls := st.calls ++ [CallEv.delete g true],
      remote := deleteEv st.remote g }
  else
    { st with calls := st.calls ++ [CallEv.delete g false] }

def sweep (delOk : String → Bool) (cur : List String) :
    List (String × String) → SweepSt → SweepSt
  | [], st => st
  | (u, g) :: rest, st => sweep delOk cur rest (sweepStep delOk cur st u g)

/-! ## The whole run (`sync_to_google`) -/

structure SyncResult where
  created : Nat
  updated : Nat
  deleted : Nat
  errors : Nat
  exceptions_updated : Nat
  exceptions_errors : Nat
  total_errors : Nat
  current_uids : List String
  uid_to_google_id : List (String × String)
  calls : List CallEv
  remote : RemoteState

/-- `sync_to_google` from src/sync.py: build the remote index, reconcile
masters, reconcile exception occurrences, sweep stale events, and return the
counters `(created, updated, deleted, total_errors, exceptions_updated)`
together with the run trace and the resulting remote store. -/
def sync_to_google (o : Oracle) (ics_events : List IcsEvent) (s0 : RemoteState) : SyncResult :=
  let index := buildIndex s0
  let p1 := pass1 o.insertOk o.updateOk index (masterList ics_events) ⟨[], 0, 0, 0, [], [], s0⟩
  let u2g := mergeIndex p1.uid_to_google_id index
  let p2 := pass2 o.patchOk o.instancesRes u2g (exceptionList ics_events) ⟨0, 0, []⟩
  let sw := sweep o.deleteOk p1.current_uids index ⟨0, [], p1.remote⟩
  { created := p1.created, updated := p1.updated, deleted := sw.deleted,
    errors := p1.errors, exceptions_updated := p2.exceptions_updated,
    exceptions_errors := p2.exceptions_errors,
    total_errors := p1.errors + p2.exceptions_errors,
    current_uids := p1.current_uids,
    uid_to_google_id := u2g,
    calls := p1.calls ++ p2.calls ++ sw.calls,
    remote := sw.remote }

/-! ## Trace predicates -/

/-- Is this a create call whose payload carries uid `u`? -/
def isInsertOf (u : String) : CallEv → Bool
  | .insert b _ => b.uid == u
  | _ => false

/-- Is this a create call? -/
def isInsertCE : CallEv → Bool
  | .insert _ _ => true
  | _ => false

/-- Is this a delete call targeting event id `g`? -/
def isDeleteOfId (g : String) : CallEv → Bool
  | .delete g' _ => g' == g
  | _ => false

/-- Is this a delete call? -/
def isDeleteCE : CallEv → Bool
  | .delete _ _ => true
  | _ => false

/-- A create or update call that failed: exactly the calls counted in the
master `errors` tally. -/
def isFailedMasterCall : CallEv → Bool
  | .insert _ none => true
  | .update _ _ none => true
  | _ => false

/-- Did the call succeed? -/
def callOk : CallEv → Bool
  | .insert _ r => r.isSome
  | .update _ _ r => r.isSome
  | .patch _ _ ok => ok
  | .delete _ ok => ok
  | .instances _ _ _ r => r.isSome

/-! ## Claims about occurrence matching, EXDATE formatting and normalization -/

/-- C5: for a timed target occurrence, an expanded remote instance (carrying a
`dateTime` original start) matches exactly when the absolute difference
between that start normalized to UTC and the target instant is strictly below
120 seconds. -/
theorem claim5_timed_tolerance (d : PyDateTime) (inst : GInstance) (a : AwareDT)
    (ha : (gEffStart inst).dateTime = some a) :
    matchesInstance false (PyTime.dateTime d)
        (normalize_datetime_for_comparison (PyTime.dateTime d)) inst = true
      ↔ Int.natAbs ((a.wall - a.off) - pyNormUtc d) < 120 := by
  have hn : normalize_datetime_for_comparison (PyTime.dateTime d)
      = PyTime.dateTime ⟨pyNormUtc d, some ⟨0, "UTC"⟩⟩ := by
    unfold normalize_datetime_for_comparison pyNormUtc
    cases h : d.tzinfo <;> simp [h]
  rw [hn]
  unfold matchesInstance
  simp only [ha, pyNormUtc, Bool.false_eq_true, if_false]
  simp

/-- 119-second instance for the tolerance witness. -/
def instW119 : GInstance :=
  { id := "i1", originalStartTime := some ⟨none, some ⟨119, 0⟩⟩, start := none }

/-- 121-second instance for the tolerance witness. -/
def instW121 : GInstance :=
  { id := "i2", originalStartTime := some ⟨none, some ⟨121, 0⟩⟩, start := none }

def dW : PyDateTime := ⟨0, none⟩

theorem claim5_witness :
    (matchesInstance false (PyTime.dateTime dW)
        (normalize_datetime_for_comparison (PyTime.dateTime dW)) instW119 = true
      ↔ Int.natAbs ((119 - 0) - pyNormUtc dW) < 120) ∧
    matchesInstance false (PyTime.dateTime dW)
        (normalize_datetime_for_comparison (PyTime.dateTime dW)) instW119 = true ∧
    matchesInstance false (PyTime.dateTime dW)
        (normalize_datetime_for_comparison (PyTime.dateTime dW)) instW121 = false :=
  ⟨claim5_timed_tolerance dW instW119 ⟨119, 0⟩ rfl, by decide, by decide⟩

/-- C6: for an all-day target occurrence the search window is
`[target date 00:00 UTC, target date + 1 day 00:00 UTC)` and an instance
matches exactly when its original start date equals the target's calendar
date; neither side depends on time-of-day or time zone. -/
theorem claim6_all_day_matching (dys : Int) (t : PyTime) (inst : GInstance) :
    searchWindow (PyTime.date dys) t
        = (⟨dys * 86400, some ⟨0, "UTC"⟩⟩, ⟨(dys + 1) * 86400, some ⟨0, "UTC"⟩⟩) ∧
    (matchesInstance true (PyTime.date dys) t inst = true
      ↔ (gEffStart inst).date = some dys) := by
  constructor
  · rfl
  · unfold matchesInstance
    cases h : (gEffStart inst).date with
    | none => simp [h]
    | some idate => simp [h]

/-- C7 counterexample: a date-valued exception date on a timed series
(is_all_day = false) produces the `VALUE=DATE` form, not the Z-suffixed
UTC form the claim asserts for timed series. -/
theorem claim7_counterexample :
    format_exdate (PyTime.date 19882) false = "EXDATE;VALUE=DATE:20240608" ∧
    endsZ (format_exdate (PyTime.date 19882) false) = false := by
  constructor
  · decide
  · decide

/-- C7 (amended): the recurrence block of a recurring master is the verbatim
RRULE line followed by one EXDATE line per exception date; the EXDATE line
uses the `VALUE=DATE` form whenever the series is all-day or the excluded
value itself is a date, and otherwise (timed series, datetime value) the
Z-suffixed form of the excluded instant, converted to UTC when the value is
zoned and taken as-is when it is naive. -/
theorem claim7_recurrence_block (u : String) (e : IcsEvent) (r : String)
    (hr : e.rrule = some r) :
    (buildGoogleEvent u e).recurrence
        = some (("RRULE:" ++ r) :: e.exdate.map (fun x => format_exdate x (!e.start.hasHour))) ∧
    (∀ days : Int, format_exdate (PyTime.date days) (!e.start.hasHour)
        = "EXDATE;VALUE=DATE:" ++ fmtDate8 days) ∧
    (∀ w : Int, ∀ tz : TzInfo, e.start.hasHour = true →
        format_exdate (PyTime.dateTime ⟨w, some tz⟩) (!e.start.hasHour)
          = "EXDATE:" ++ fmtStamp (w - tz.off) ++ "Z") ∧
    (∀ w : Int, e.start.hasHour = true →
        format_exdate (PyTime.dateTime ⟨w, none⟩) (!e.start.hasHour)
          = "EXDATE:" ++ fmtStamp w ++ "Z") ∧
    (∀ w : Int, ∀ tzo : Option TzInfo, e.start.hasHour = false →
        format_exdate (PyTime.dateTime ⟨w, tzo⟩) (!e.start.hasHour)
          = "EXDATE;VALUE=DATE:" ++ fmtDate8 (Int.ediv w 86400)) := by
  refine ⟨?_, ?_, ?_, ?_, ?_⟩
  · simp [buildGoogleEvent, hr]
  · intro days
    simp [format_exdate, PyTime.hasHour, PyTime.wallDays]
  · intro w tz hh
    rw [hh]
    simp [format_exdate, PyTime.hasHour]
  · intro w hh
    rw [hh]
    simp [format_exdate, PyTime.hasHour]
  · intro w tzo hh
    rw [hh]
    simp [format_exdate, PyTime.hasHour, PyTime.wallDays]

/-- The timed exception date 2024-06-08T09:00+03:00. -/
def exdtJun8 : PyTime :=
  PyTime.dateTime ⟨19882 * 86400 + 9 * 3600, some ⟨10800, "+03:00"⟩⟩

/-- A timed weekly master carrying that exception date. -/
def evC7 : IcsEvent :=
  { uid := "A", summary := "S", description := "", location := "",
    start := PyTime.dateTime ⟨19882 * 86400 + 9 * 3600, some ⟨10800, "+03:00"⟩⟩,
    end_ := PyTime.dateTime ⟨19882 * 86400 + 10 * 3600, some ⟨10800, "+03:00"⟩⟩,
    rrule := some "FREQ=WEEKLY", exdate := [exdtJun8], recurrence_id := none }

theorem claim7_witness :
    ((buildGoogleEvent "A" evC7).recurrence
        = some (("RRULE:" ++ "FREQ=WEEKLY")
            :: evC7.exdate.map (fun x => format_exdate x (!evC7.start.hasHour))) ∧
      (∀ days : Int, format_exdate (PyTime.date days) (!evC7.start.hasHour)
          = "EXDATE;VALUE=DATE:" ++ fmtDate8 days) ∧
      (∀ w : Int, ∀ tz : TzInfo, evC7.start.hasHour = true →
          format_exdate (PyTime.dateTime ⟨w, some tz⟩) (!evC7.start.hasHour)
            = "EXDATE:" ++ fmtStamp (w - tz.off) ++ "Z") ∧
      (∀ w : Int, evC7.start.hasHour = true →
          format_exdate (PyTime.dateTime ⟨w, none⟩) (!evC7.start.hasHour)
            = "EXDATE:" ++ fmtStamp w ++ "Z") ∧
      (∀ w : Int, ∀ tzo : Option TzInfo, evC7.start.hasHour = false →
          format_exdate (PyTime.dateTime ⟨w, tzo⟩) (!evC7.start.hasHour)
            = "EXDATE;VALUE=DATE:" ++ fmtDate8 (Int.ediv w 86400))) ∧
    (buildGoogleEvent "A" evC7).recurrence
        = some ["RRULE:FREQ=WEEKLY", "EXDATE:20240608T060000Z"] :=
  ⟨claim7_recurrence_block "A" evC7 "FREQ=WEEKLY" rfl, by decide⟩

/-- C10: a feed entry with a DTSTART but no DTEND is normalized (kept) with
its end set equal to its start. -/
theorem claim10_default_end (c : RawComponent) (s : PyTime)
    (h1 : c.dtstart = some s) (h2 : c.dtend = none) :
    ∃ ev, normalizeComponent c = some ev ∧ ev.start = s ∧ ev.end_ = s := by
  unfold normalizeComponent
  rw [h1, h2]
  exact ⟨_, rfl, rfl, rfl⟩

def rawW : RawComponent :=
  { uid := some "U", summary := some "S", description := none, location := none,
    dtstart := some (PyTime.date 1), dtend := none, rrule := none, exdate := [],
    recurrence_id := none }

theorem claim10_witness :
    ∃ ev, normalizeComponent rawW = some ev ∧
      ev.start = PyTime.date 1 ∧ ev.end_ = PyTime.date 1 :=
  claim10_default_end rawW (PyTime.date 1) rfl rfl

/-! ## Dict lemmas -/

theorem dlookup_dinsert_self {α : Type} (l : List (String × α)) (k : String) (v : α) :
    dlookup (dinsert l k v) k = some v := by
  induction l with
  | nil => simp [dinsert, dlookup]
  | cons p t ih =>
    by_cases h : p.1 = k
    · simp [dinsert, h, dlookup]
    · simp [dinsert, h, dlookup, ih]

theorem dlookup_dinsert_ne {α : Type} (l : List (String × α)) (k k' : String) (v : α)
    (h : k' ≠ k) : dlookup (dinsert l k v) k' = dlookup l k' := by
  induction l with
  | nil => simp [dinsert, dlookup, Ne.symm h]
  | cons p t ih =>
    by_cases hp : p.1 = k
    · simp [dinsert, dlookup, hp, Ne.symm h]
    · simp [dinsert, dlookup, hp, ih]

theorem mem_dinsert {α : Type} {p : String × α} {l : List (String × α)} {k : String} {v : α}
    (h : p ∈ dinsert l k v) : p = (k, v) ∨ p ∈ l := by
  induction l with
  | nil => simpa [dinsert] using h
  | cons q t ih =>
    simp only [dinsert] at h
    by_cases hq : q.1 = k
    · rw [if_pos hq] at h
      rcases List.mem_cons.mp h with h' | h'
      · exact Or.inl h'
      · exact Or.inr (List.mem_cons_of_mem _ h')
    · rw [if_neg hq] at h
      rcases List.mem_cons.mp h with h' | h'
      · exact Or.inr (List.mem_cons.mpr (Or.inl h'))
      · rcases ih h' with h'' | h''
        · exact Or.inl h''
        · exact Or.inr (List.mem_cons_of_mem _ h'')

theorem dlookup_some_mem {α : Type} {l : List (String × α)} {k : String} {v : α}
    (h : dlookup l k = some v) : (k, v) ∈ l := by
  induction l with
  | nil => simp [dlookup] at h
  | cons p t ih =>
    simp only [dlookup] at h
    by_cases hp : p.1 = k
    · rw [if_pos hp] at h
      refine List.mem_cons.mpr (Or.inl ?_)
      rw [Prod.ext_iff]
      exact ⟨hp.symm, (Option.some_inj.mp h).symm⟩
    · rw [if_neg hp] at h
      exact List.mem_cons_of_mem _ (ih h)

theorem dlookup_none_iff {α : Type} (l : List (String × α)) (k : String) :
    dlookup l k = none ↔ k ∉ l.map Prod.fst := by
  induction l with
  | nil => simp [dlookup]
  | cons p t ih =>
    by_cases hp : p.1 = k
    · simp [dlookup, hp]
    · simp [dlookup, hp, ih, Ne.symm hp]

theorem dlookup_isSome_iff {α : Type} (l : List (String × α)) (k : String) :
    (dlookup l k).isSome = true ↔ k ∈ l.map Prod.fst := by
  rcases h : dlookup l k with _ | v
  · rw [dlookup_none_iff] at h
    simp [h]
  · have := dlookup_some_mem h
    simp only [Option.isSome_some, true_iff]
    exact List.mem_map.mpr ⟨(k, v), this, rfl⟩

theorem mem_dlookup_of_nodup {α : Type} {l : List (String × α)}
    (hnd : (l.map Prod.fst).Nodup) {k : String} {v : α} (h : (k, v) ∈ l) :
    dlookup l k = some v := by
  induction l with
  | nil => simp at h
  | cons p t ih =>
    rcases List.mem_cons.mp h with h' | h'
    · subst h'
      simp [dlookup]
    · have hk : k ∈ t.map Prod.fst := List.mem_map.mpr ⟨(k, v), h', rfl⟩
      have hp : p.1 ≠ k := by
        intro hpk
        exact (List.nodup_cons.mp hnd).1 (hpk ▸ hk)
      simp only [dlookup, hp, if_false]
      exact ih (List.nodup_cons.mp hnd).2 h'

theorem keys_dinsert {α : Type} (l : List (String × α)) (k : String) (v : α) :
    (dinsert l k v).map Prod.fst
      = if k ∈ l.map Prod.fst then l.map Prod.fst else l.map Prod.fst ++ [k] := by
  induction l with
  | nil => simp [dinsert]
  | cons p t ih =>
    by_cases hp : p.1 = k
    · simp [dinsert, hp]
    · simp only [dinsert, hp, if_false, List.map_cons, ih, List.mem_cons]
      by_cases hk : k ∈ t.map Prod.fst <;> simp [hk, Ne.symm hp]

theorem nodup_keys_dinsert {α : Type} (l : List (String × α)) (k : String) (v : α)
    (h : (l.map Prod.fst).Nodup) : ((dinsert l k v).map Prod.fst).Nodup := by
  rw [keys_dinsert]
  by_cases hk : k ∈ l.map Prod.fst
  · simpa [hk] using h
  · simp only [hk, if_false]
    rw [List.nodup_append]
    refine ⟨h, List.nodup_singleton k, ?_⟩
    intro a ha hb
    simp only [List.mem_singleton] at hb
    exact hk (hb ▸ ha)

theorem mem_fst_nodup_inj {α : Type} {l : List (String × α)}
    (h : (l.map Prod.fst).Nodup) {k : String} {a b : α}
    (ha : (k, a) ∈ l) (hb : (k, b) ∈ l) : a = b := by
  have h1 := mem_dlookup_of_nodup h ha
  have h2 := mem_dlookup_of_nodup h hb
  rw [h1] at h2
  exact Option.some_inj.mp h2

/-! ## Master-dict lemmas -/

theorem buildMasters_mem {evs : List IcsEvent} {acc : List (String × IcsEvent)}
    {u : String} {e : IcsEvent} (h : (u, e) ∈ buildMasters evs acc) :
    (u, e) ∈ acc ∨ (u = e.uid ∧ e.recurrence_id = none ∧ e ∈ evs) := by
  induction evs generalizing acc with
  | nil => exact Or.inl (by simpa [buildMasters] using h)
  | cons a t ih =>
    simp only [buildMasters] at h
    by_cases ha : a.recurrence_id.isSome
    · rw [if_pos ha] at h
      rcases ih h with h' | h'
      · exact Or.inl h'
      · exact Or.inr ⟨h'.1, h'.2.1, List.mem_cons_of_mem _ h'.2.2⟩
    · rw [if_neg ha] at h
      rcases ih h with h' | h'
      · rcases mem_dinsert h' with h'' | h''
        · rw [Prod.mk.injEq] at h''
          refine Or.inr ⟨?_, ?_, ?_⟩
          · rw [h''.1, h''.2]
          · rw [h''.2]
            exact Option.not_isSome_iff_eq_none.mp ha
          · rw [h''.2]
            exact List.mem_cons_self a t
        · exact Or.inl h''
      · exact Or.inr ⟨h'.1, h'.2.1, List.mem_cons_of_mem _ h'.2.2⟩

theorem masterList_mem {evs : List IcsEvent} {u : String} {e : IcsEvent}
    (h : (u, e) ∈ masterList evs) :
    u = e.uid ∧ e.recurrence_id = none ∧ e ∈ evs := by
  rcases buildMasters_mem h with h' | h'
  · simp at h'
  · exact h'

theorem buildMasters_keys_nodup (evs : List IcsEvent) (acc : List (String × IcsEvent))
    (h : (acc.map Prod.fst).Nodup) : ((buildMasters evs acc).map Prod.fst).Nodup := by
  induction evs generalizing acc with
  | nil => simpa [buildMasters] using h
  | cons a t ih =>
    simp only [buildMasters]
    by_cases ha : a.recurrence_id.isSome
    · rw [if_pos ha]
      exact ih _ h
    · rw [if_neg ha]
      exact ih _ (nodup_keys_dinsert _ _ _ h)

theorem masterList_keys_nodup (evs : List IcsEvent) :
    ((masterList evs).map Prod.fst).Nodup :=
  buildMasters_keys_nodup evs [] (by simp)

/-! ## Remote-index lemmas -/

/-- The uids of the marker-tagged, non-empty-uid rows, in store order. -/
def taggedUidsOf (rows : List (String × GoogleEvent)) : List String :=
  (rows.filter (fun p => decide (p.2.syncMarker = SYNC_MARKER ∧ p.2.uid ≠ ""))).map
    (fun p => p.2.uid)

theorem taggedUidsOf_cons (p : String × GoogleEvent) (t : List (String × GoogleEvent)) :
    taggedUidsOf (p :: t)
      = if p.2.syncMarker = SYNC_MARKER ∧ p.2.uid ≠ "" then p.2.uid :: taggedUidsOf t
        else taggedUidsOf t := by
  unfold taggedUidsOf
  by_cases hp : p.2.syncMarker = SYNC_MARKER ∧ p.2.uid ≠ ""
  · simp [List.filter_cons, hp]
  · simp [List.filter_cons, hp]

theorem indexFold_isSome (rows : List (String × GoogleEvent))
    (acc : List (String × String)) (u : String)
    (h : (dlookup acc u).isSome = true) :
    (dlookup (indexFold rows acc) u).isSome = true := by
  induction rows generalizing acc with
  | nil => simpa [indexFold] using h
  | cons p t ih =>
    simp only [indexFold]
    refine ih _ ?_
    unfold indexStep
    by_cases hp : p.2.syncMarker = SYNC_MARKER ∧ p.2.uid ≠ ""
    · rw [if_pos hp]
      by_cases hu : u = p.2.uid
      · subst hu
        simp [dlookup_dinsert_self]
      · rwa [dlookup_dinsert_ne _ _ _ _ hu]
    · rwa [if_neg hp]

theorem indexFold_lookup_some (rows : List (String × GoogleEvent))
    (acc : List (String × String)) (u g : String)
    (h : dlookup (indexFold rows acc) u = some g) :
    dlookup acc u = some g ∨
      ∃ ev, (g, ev) ∈ rows ∧ ev.syncMarker = SYNC_MARKER ∧ ev.uid = u ∧ u ≠ "" := by
  induction rows generalizing acc with
  | nil => exact Or.inl (by simpa [indexFold] using h)
  | cons p t ih =>
    simp only [indexFold] at h
    rcases ih _ h with h' | h'
    · unfold indexStep at h'
      by_cases hp : p.2.syncMarker = SYNC_MARKER ∧ p.2.uid ≠ ""
      · rw [if_pos hp] at h'
        by_cases hu : u = p.2.uid
        · subst hu
          rw [dlookup_dinsert_self] at h'
          refine Or.inr ⟨p.2, ?_, hp.1, rfl, hp.2⟩
          have hpg : p = (g, p.2) := by
            rw [Prod.ext_iff]
            exact ⟨Option.some_inj.mp h', rfl⟩
          rw [← hpg]
          exact List.mem_cons_self p t
        · rw [dlookup_dinsert_ne _ _ _ _ hu] at h'
          exact Or.inl h'
      · rw [if_neg hp] at h'
        exact Or.inl h'
    · rcases h' with ⟨ev, hm, h1, h2, h3⟩
      exact Or.inr ⟨ev, List.mem_cons_of_mem _ hm, h1, h2, h3⟩

theorem indexFold_mem_isSome (rows : List (String × GoogleEvent))
    (acc : List (String × String)) (g : String) (ev : GoogleEvent)
    (hm : (g, ev) ∈ rows) (h1 : ev.syncMarker = SYNC_MARKER) (h2 : ev.uid ≠ "") :
    (dlookup (indexFold rows acc) ev.uid).isSome = true := by
  induction rows generalizing acc with
  | nil => simp at hm
  | cons p t ih =>
    simp only [indexFold]
    rcases List.mem_cons.mp hm with h' | h'
    · refine indexFold_isSome _ _ _ ?_
      unfold indexStep
      have hp : p.2.syncMarker = SYNC_MARKER ∧ p.2.uid ≠ "" := by
        rw [← h']
        exact ⟨h1, h2⟩
      rw [if_pos hp]
      have hpu : p.2.uid = ev.uid := by rw [← h']
      rw [hpu]
      simp [dlookup_dinsert_self]
    · exact ih _ h'

theorem indexFold_lookup_of_not_tagged (rows : List (String × GoogleEvent))
    (acc : List (String × String)) (w : String) (h : w ∉ taggedUidsOf rows) :
    dlookup (indexFold rows acc) w = dlookup acc w := by
  induction rows generalizing acc with
  | nil => simp [indexFold]
  | cons p t ih =>
    simp only [indexFold]
    rw [taggedUidsOf_cons] at h
    by_cases hp : p.2.syncMarker = SYNC_MARKER ∧ p.2.uid ≠ ""
    · rw [if_pos hp] at h
      simp only [List.mem_cons] at h
      push_neg at h
      rw [ih _ h.2]
      unfold indexStep
      rw [if_pos hp]
      exact dlookup_dinsert_ne _ _ _ _ h.1
    · rw [if_neg hp] at h
      rw [ih _ h]
      unfold indexStep
      rw [if_neg hp]

theorem indexFold_lookup_unique (rows : List (String × GoogleEvent))
    (hnd : (taggedUidsOf rows).Nodup) (acc : List (String × String))
    (g : String) (ev : GoogleEvent) (hm : (g, ev) ∈ rows)
    (h1 : ev.syncMarker = SYNC_MARKER) (h2 : ev.uid ≠ "") :
    dlookup (indexFold rows acc) ev.uid = some g := by
  induction rows generalizing acc with
  | nil => simp at hm
  | cons p t ih =>
    simp only [indexFold]
    rw [taggedUidsOf_cons] at hnd
    rcases List.mem_cons.mp hm with h' | h'
    · have hp : p.2.syncMarker = SYNC_MARKER ∧ p.2.uid ≠ "" := by
        rw [← h']
        exact ⟨h1, h2⟩
      rw [if_pos hp] at hnd
      have hpu : p.2.uid = ev.uid := by rw [← h']
      have hnotin : ev.uid ∉ taggedUidsOf t := by
        rw [← hpu]
        exact (List.nodup_cons.mp hnd).1
      rw [indexFold_lookup_of_not_tagged _ _ _ hnotin]
      unfold indexStep
      rw [if_pos hp, hpu]
      have hpg : p.1 = g := by rw [← h']
      rw [hpg]
      exact dlookup_dinsert_self _ _ _
    · have hnd' : (taggedUidsOf t).Nodup := by
        by_cases hp : p.2.syncMarker = SYNC_MARKER ∧ p.2.uid ≠ ""
        · rw [if_pos hp] at hnd
          exact (List.nodup_cons.mp hnd).2
        · rwa [if_neg hp] at hnd
      exact ih hnd' _ h'

theorem buildIndex_lookup_some (s0 : RemoteState) {u g : String}
    (h : dlookup (buildIndex s0) u = some g) :
    ∃ ev, (g, ev) ∈ s0.events ∧ ev.syncMarker = SYNC_MARKER ∧ ev.uid = u ∧ u ≠ "" := by
  rcases indexFold_lookup_some _ _ _ _ h with h' | h'
  · simp [dlookup] at h'
  · exact h'

theorem buildIndex_mem_ids (s0 : RemoteState) {u g : String}
    (h : dlookup (buildIndex s0) u = some g) : g ∈ s0.events.map Prod.fst := by
  rcases buildIndex_lookup_some s0 h with ⟨ev, hm, _, _, _⟩
  exact List.mem_map.mpr ⟨(g, ev), hm, rfl⟩

theorem buildIndex_inj (s0 : RemoteState) (hids : (s0.events.map Prod.fst).Nodup)
    {u1 u2 g : String} (h1 : dlookup (buildIndex s0) u1 = some g)
    (h2 : dlookup (buildIndex s0) u2 = some g) : u1 = u2 := by
  rcases buildIndex_lookup_some s0 h1 with ⟨ev1, hm1, _, hu1, _⟩
  rcases buildIndex_lookup_some s0 h2 with ⟨ev2, hm2, _, hu2, _⟩
  have : ev1 = ev2 := mem_fst_nodup_inj hids hm1 hm2
  rw [← hu1, ← hu2, this]

theorem indexFold_keys_nodup (rows : List (String × GoogleEvent))
    (acc : List (String × String)) (h : (acc.map Prod.fst).Nodup) :
    ((indexFold rows acc).map Prod.fst).Nodup := by
  induction rows generalizing acc with
  | nil => simpa [indexFold] using h
  | cons p t ih =>
    simp only [indexFold]
    refine ih _ ?_
    unfold indexStep
    by_cases hp : p.2.syncMarker = SYNC_MARKER ∧ p.2.uid ≠ ""
    · rw [if_pos hp]
      exact nodup_keys_dinsert _ _ _ h
    · rwa [if_neg hp]

theorem buildIndex_keys_nodup (s0 : RemoteState) :
    ((buildIndex s0).map Prod.fst).Nodup :=
  indexFold_keys_nodup _ [] (by simp)

/-! ## Pass-1 trace lemmas -/

def isUpdateCE : CallEv → Bool
  | .update _ _ _ => true
  | _ => false

/-- A call emitted by pass 2 (occurrence expansion or patch). -/
def isP2CE : CallEv → Bool
  | .patch _ _ _ => true
  | .instances _ _ _ _ => true
  | _ => false

/-- The single remote call issued for one master, as a function of the
pre-step allocation counter. -/
def pass1Call (ins : GoogleEvent → Bool) (upd : String → GoogleEvent → Bool)
    (idx : List (String × String)) (ctr : Nat) (u : String) (e : IcsEvent) : CallEv :=
  let ge := buildGoogleEvent u e
  match dlookup idx u with
  | some gid =>
    if upd gid ge then CallEv.update gid ge (some gid) else CallEv.update gid ge none
  | none =>
    if ins ge then CallEv.insert ge (some (freshId ctr)) else CallEv.insert ge none

theorem pass1Step_calls (ins : GoogleEvent → Bool) (upd : String → GoogleEvent → Bool)
    (idx : List (String × String)) (st : P1) (u : String) (e : IcsEvent) :
    (pass1Step ins upd idx st u e).calls
      = st.calls ++ [pass1Call ins upd idx st.remote.counter u e] := by
  unfold pass1Step pass1Call
  rcases h : dlookup idx u with _ | gid
  · by_cases hi : ins (buildGoogleEvent u e) <;> simp [hi]
  · by_cases hu : upd gid (buildGoogleEvent u e) <;> simp [hu]

theorem pass1Step_current (ins : GoogleEvent → Bool) (upd : String → GoogleEvent → Bool)
    (idx : List (String × String)) (st : P1) (u : String) (e : IcsEvent) :
    (pass1Step ins upd idx st u e).current_uids = st.current_uids ++ [u] := by
  unfold pass1Step
  rcases h : dlookup idx u with _ | gid
  · by_cases hi : ins (buildGoogleEvent u e) <;> simp [hi]
  · by_cases hu : upd gid (buildGoogleEvent u e) <;> simp [hu]

theorem pass1_current (ins : GoogleEvent → Bool) (upd : String → GoogleEvent → Bool)
    (idx : List (String × String)) (ms : List (String × IcsEvent)) (st : P1) :
    (pass1 ins upd idx ms st).current_uids = st.current_uids ++ ms.map Prod.fst := by
  induction ms generalizing st with
  | nil => simp [pass1]
  | cons p t ih =>
    rcases p with ⟨u, e⟩
    simp only [pass1]
    rw [ih, pass1Step_current]
    simp

theorem pass1_calls_append (ins : GoogleEvent → Bool) (upd : String → GoogleEvent → Bool)
    (idx : List (String × String)) (ms : List (String × IcsEvent)) (st : P1) :
    ∃ l, (pass1 ins upd idx ms st).calls = st.calls ++ l := by
  induction ms generalizing st with
  | nil => exact ⟨[], by simp [pass1]⟩
  | cons p t ih =>
    rcases p with ⟨u, e⟩
    simp only [pass1]
    rcases ih (pass1Step ins upd idx st u e) with ⟨l, hl⟩
    rw [hl, pass1Step_calls]
    exact ⟨pass1Call ins upd idx st.remote.counter u e :: l, by simp⟩

theorem pass1Call_pred_false (pred : CallEv → Bool)
    (hins : ∀ b r, pred (CallEv.insert b r) = false)
    (hupd : ∀ g b r, pred (CallEv.update g b r) = false)
    (ins : GoogleEvent → Bool) (upd : String → GoogleEvent → Bool)
    (idx : List (String × String)) (ctr : Nat) (u : String) (e : IcsEvent) :
    pred (pass1Call ins upd idx ctr u e) = false := by
  unfold pass1Call
  rcases h : dlookup idx u with _ | gid
  · by_cases hi : ins (buildGoogleEvent u e) <;> simp [hi, hins]
  · by_cases hu : upd gid (buildGoogleEvent u e) <;> simp [hu, hupd]

theorem pass1_countP_inv (pred : CallEv → Bool)
    (hins : ∀ b r, pred (CallEv.insert b r) = false)
    (hupd : ∀ g b r, pred (CallEv.update g b r) = false)
    (ins : GoogleEvent → Bool) (upd : String → GoogleEvent → Bool)
    (idx : List (String × String)) (ms : List (String × IcsEvent)) (st : P1) :
    ((pass1 ins upd idx ms st).calls.countP pred) = st.calls.countP pred := by
  induction ms generalizing st with
  | nil => simp [pass1]
  | cons p t ih =>
    rcases p with ⟨u, e⟩
    simp only [pass1]
    rw [ih, pass1Step_calls, List.countP_append]
    simp [pass1Call_pred_false pred hins hupd]

theorem pass1Call_isInsertCE (ins : GoogleEvent → Bool) (upd : String → GoogleEvent → Bool)
    (idx : List (String × String)) (ctr : Nat) (u : String) (e : IcsEvent) :
    isInsertCE (pass1Call ins upd idx ctr u e) = decide (dlookup idx u = none) := by
  unfold pass1Call
  rcases h : dlookup idx u with _ | gid
  · by_cases hi : ins (buildGoogleEvent u e) <;> simp [hi, isInsertCE]
  · by_cases hu : upd gid (buildGoogleEvent u e) <;> simp [hu, isInsertCE]

theorem pass1_insert_count (ins : GoogleEvent → Bool) (upd : String → GoogleEvent → Bool)
    (idx : List (String × String)) (ms : List (String × IcsEvent)) (st : P1) :
    ((pass1 ins upd idx ms st).calls.countP isInsertCE)
      = st.calls.countP isInsertCE
        + ms.countP (fun p => decide (dlookup idx p.1 = none)) := by
  induction ms generalizing st with
  | nil => simp [pass1]
  | cons p t ih =>
    rcases p with ⟨u, e⟩
    simp only [pass1]
    rw [ih, pass1Step_calls, List.countP_append, List.countP_cons]
    simp only [List.countP_cons, pass1Call_isInsertCE]
    by_cases h : dlookup idx u = none <;> simp [h] <;> omega

theorem pass1Step_errors (ins : GoogleEvent → Bool) (upd : String → GoogleEvent → Bool)
    (idx : List (String × String)) (st : P1) (u : String) (e : IcsEvent) :
    (pass1Step ins upd idx st u e).errors
      = st.errors
        + (if isFailedMasterCall (pass1Call ins upd idx st.remote.counter u e) = true
           then 1 else 0) := by
  unfold pass1Step pass1Call
  rcases h : dlookup idx u with _ | gid
  · by_cases hi : ins (buildGoogleEvent u e) <;> simp [hi, isFailedMasterCall]
  · by_cases hu : upd gid (buildGoogleEvent u e) <;> simp [hu, isFailedMasterCall]

theorem pass1_errors_count (ins : GoogleEvent → Bool) (upd : String → GoogleEvent → Bool)
    (idx : List (String × String)) (ms : List (String × IcsEvent)) (st : P1) :
    ((pass1 ins upd idx ms st).calls.countP isFailedMasterCall) + st.errors
      = st.calls.countP isFailedMasterCall + (pass1 ins upd idx ms st).errors := by
  induction ms generalizing st with
  | nil => simp [pass1]
  | cons p t ih =>
    rcases p with ⟨u, e⟩
    simp only [pass1]
    have h := ih (pass1Step ins upd idx st u e)
    rw [pass1Step_calls, List.countP_append, pass1Step_errors] at h
    by_cases hf : isFailedMasterCall (pass1Call ins upd idx st.remote.counter u e) = true
      <;> simp [hf] at h <;> omega

/-! ## Pass-2 trace lemmas -/

theorem find_instance_call (instRes : String → PyDateTime → PyDateTime → Option (List GInstance))
    (pid : String) (rid : PyTime) :
    (find_instance_event_id instRes pid rid).2
      = CallEv.instances pid
          (searchWindow rid (normalize_datetime_for_comparison rid)).1
          (searchWindow rid (normalize_datetime_for_comparison rid)).2
          (instRes pid (searchWindow rid (normalize_datetime_for_comparison rid)).1
            (searchWindow rid (normalize_datetime_for_comparison rid)).2) := rfl

theorem pass2Step_calls (patOk : String → PatchBody → Bool)
    (instRes : String → PyDateTime → PyDateTime → Option (List GInstance))
    (u2g : List (String × String)) (st : P2) (e : IcsEvent) :
    ∃ l, (pass2Step patOk instRes u2g st e).calls = st.calls ++ l ∧
      ∀ c ∈ l, isP2CE c = true := by
  unfold pass2Step
  rcases h : dlookup u2g e.uid with _ | pid
  · exact ⟨[], by simp, by simp⟩
  · simp only
    by_cases hp : pid = ""
    · rw [if_pos hp]
      exact ⟨[], by simp, by simp⟩
    · rw [if_neg hp]
      rcases hf : (find_instance_event_id instRes pid (e.recurrence_id.getD (PyTime.date 0))).1
        with _ | iid
      · refine ⟨[(find_instance_event_id instRes pid (e.recurrence_id.getD (PyTime.date 0))).2],
          by simp, ?_⟩
        intro c hc
        simp only [List.mem_singleton] at hc
        rw [hc, find_instance_call]
        rfl
      · dsimp only
        by_cases hi : iid = ""
        · rw [if_pos hi]
          refine ⟨[(find_instance_event_id instRes pid (e.recurrence_id.getD (PyTime.date 0))).2],
            by simp, ?_⟩
          intro c hc
          simp only [List.mem_singleton] at hc
          rw [hc, find_instance_call]
          rfl
        · rw [if_neg hi]
          by_cases hpk : patOk iid (buildPatchBody e)
          · rw [if_pos hpk]
            refine ⟨[(find_instance_event_id instRes pid (e.recurrence_id.getD (PyTime.date 0))).2,
              CallEv.patch iid (buildPatchBody e) true], by simp, ?_⟩
            intro c hc
            rcases List.mem_cons.mp hc with hc' | hc'
            · rw [hc', find_instance_call]
              rfl
            · simp only [List.mem_singleton] at hc'
              rw [hc']
              rfl
          · rw [if_neg hpk]
            refine ⟨[(find_instance_event_id instRes pid (e.recurrence_id.getD (PyTime.date 0))).2,
              CallEv.patch iid (buildPatchBody e) false], by simp, ?_⟩
            intro c hc
            rcases List.mem_cons.mp hc with hc' | hc'
            · rw [hc', find_instance_call]
              rfl
            · simp only [List.mem_singleton] at hc'
              rw [hc']
              rfl

theorem pass2_countP_inv (pred : CallEv → Bool) (hp : ∀ c, isP2CE c = true → pred c = false)
    (patOk : String → PatchBody → Bool)
    (instRes : String → PyDateTime → PyDateTime → Option (List GInstance))
    (u2g : List (String × String)) (l : List IcsEvent) (st : P2) :
    ((pass2 patOk instRes u2g l st).calls.countP pred) = st.calls.countP pred := by
  induction l generalizing st with
  | nil => simp [pass2]
  | cons e t ih =>
    simp only [pass2]
    rw [ih]
    rcases pass2Step_calls patOk instRes u2g st e with ⟨l', hl', hall⟩
    rw [hl', List.countP_append]
    have : l'.countP pred = 0 := by
      rw [List.countP_eq_zero]
      intro c hc
      simp [hp c (hall c hc)]
    omega

theorem pass2Step_sum (patOk : String → PatchBody → Bool)
    (instRes : String → PyDateTime → PyDateTime → Option (List GInstance))
    (u2g : List (String × String)) (st : P2) (e : IcsEvent) :
    (pass2Step patOk instRes u2g st e).exceptions_updated
        + (pass2Step patOk instRes u2g st e).exceptions_errors
      = st.exceptions_updated + st.exceptions_errors + 1 := by
  unfold pass2Step
  rcases h : dlookup u2g e.uid with _ | pid
  · dsimp only
    omega
  · dsimp only
    by_cases hp : pid = ""
    · rw [if_pos hp]
      dsimp only
      omega
    · rw [if_neg hp]
      rcases hf : (find_instance_event_id instRes pid (e.recurrence_id.getD (PyTime.date 0))).1
        with _ | iid
      · dsimp only
        omega
      · dsimp only
        by_cases hi : iid = ""
        · rw [if_pos hi]
          dsimp only
          omega
        · rw [if_neg hi]
          by_cases hpk : patOk iid (buildPatchBody e) = true
          · rw [if_pos hpk]
            dsimp only
            omega
          · rw [if_neg hpk]
            dsimp only
            omega

theorem pass2_sum (patOk : String → PatchBody → Bool)
    (instRes : String → PyDateTime → PyDateTime → Option (List GInstance))
    (u2g : List (String × String)) (l : List IcsEvent) (st : P2) :
    (pass2 patOk instRes u2g l st).exceptions_updated
        + (pass2 patOk instRes u2g l st).exceptions_errors
      = st.exceptions_updated + st.exceptions_errors + l.length := by
  induction l generalizing st with
  | nil => simp [pass2]
  | cons e t ih =>
    simp only [pass2, List.length_cons]
    rw [ih, pass2Step_sum]
    omega

/-! ## Sweep trace lemmas -/

theorem sweepStep_calls (delOk : String → Bool) (cur : List String) (st : SweepSt)
    (u g : String) :
    (sweepStep delOk cur st u g).calls
      = st.calls ++ (if u ∈ cur then [] else [CallEv.delete g (delOk g)]) := by
  unfold sweepStep
  by_cases hu : u ∈ cur
  · simp [hu]
  · by_cases hd : delOk g <;> simp [hu, hd]

theorem sweep_delete_count (delOk : String → Bool) (cur : List String)
    (l : List (String × String)) (st : SweepSt) (g : String) :
    ((sweep delOk cur l st).calls.countP (isDeleteOfId g))
      = st.calls.countP (isDeleteOfId g)
        + l.countP (fun p => decide (p.1 ∉ cur) && (p.2 == g)) := by
  induction l generalizing st with
  | nil => simp [sweep]
  | cons p t ih =>
    rcases p with ⟨u, g'⟩
    simp only [sweep]
    rw [ih, sweepStep_calls, List.countP_append, List.countP_cons]
    by_cases hu : u ∈ cur
    · simp [hu]
    · by_cases hg : g' = g
      · simp [hu, hg, isDeleteOfId]
        omega
      · simp [hu, hg, isDeleteOfId]

theorem sweep_countP_inv (pred : CallEv → Bool) (hd : ∀ g b, pred (CallEv.delete g b) = false)
    (delOk : String → Bool) (cur : List String) (l : List (String × String)) (st : SweepSt) :
    ((sweep delOk cur l st).calls.countP pred) = st.calls.countP pred := by
  induction l generalizing st with
  | nil => simp [sweep]
  | cons p t ih =>
    rcases p with ⟨u, g'⟩
    simp only [sweep]
    rw [ih, sweepStep_calls, List.countP_append]
    by_cases hu : u ∈ cur <;> simp [hu, hd]

theorem sweep_calls_id (delOk : String → Bool) (cur : List String)
    (l : List (String × String)) (st : SweepSt) (h : ∀ p ∈ l, p.1 ∈ cur) :
    (sweep delOk cur l st).calls = st.calls := by
  induction l generalizing st with
  | nil => simp [sweep]
  | cons p t ih =>
    rcases p with ⟨u, g'⟩
    simp only [sweep]
    rw [ih _ (fun q hq => h q (List.mem_cons_of_mem _ hq)), sweepStep_calls]
    have hu : u ∈ cur := h (u, g') (List.mem_cons_self _ _)
    simp [hu]

theorem sweep_calls_append (delOk : String → Bool) (cur : List String)
    (l : List (String × String)) (st : SweepSt) :
    ∃ l', (sweep delOk cur l st).calls = st.calls ++ l' := by
  induction l generalizing st with
  | nil => exact ⟨[], by simp [sweep]⟩
  | cons p t ih =>
    rcases p with ⟨u, g'⟩
    simp only [sweep]
    rcases ih (sweepStep delOk cur st u g') with ⟨l', hl'⟩
    rw [hl', sweepStep_calls]
    by_cases hu : u ∈ cur
    · simp only [hu, if_true]
      exact ⟨l', by simp⟩
    · simp only [hu, if_false]
      exact ⟨CallEv.delete g' (delOk g') :: l', by simp⟩

theorem sweep_mem_delete (delOk : String → Bool) (cur : List String)
    (l : List (String × String)) (st : SweepSt) (u g : String)
    (hm : (u, g) ∈ l) (hu : u ∉ cur) :
    CallEv.delete g (delOk g) ∈ (sweep delOk cur l st).calls := by
  induction l generalizing st with
  | nil => simp at hm
  | cons p t ih =>
    simp only [sweep]
    rcases List.mem_cons.mp hm with h' | h'
    · rcases sweep_calls_append delOk cur t (sweepStep delOk cur st p.1 p.2) with ⟨l', hl'⟩
      rw [hl', sweepStep_calls]
      have hcur : p.1 ∉ cur := by
        rw [← h']
        exact hu
      simp only [hcur, if_false]
      have hpg : p.2 = g := by rw [← h']
      rw [hpg]
      simp
    · exact ih _ h'

/-! ## Per-uid pass-1 characterization -/

theorem buildGoogleEvent_uid (u : String) (e : IcsEvent) :
    (buildGoogleEvent u e).uid = u := rfl

theorem pass1Call_none (ins : GoogleEvent → Bool) (upd : String → GoogleEvent → Bool)
    (idx : List (String × String)) (ctr : Nat) (u : String) (e : IcsEvent)
    (h : dlookup idx u = none) :
    pass1Call ins upd idx ctr u e
      = CallEv.insert (buildGoogleEvent u e)
          (if ins (buildGoogleEvent u e) = true then some (freshId ctr) else none) := by
  unfold pass1Call
  rw [h]
  dsimp only
  by_cases hi : ins (buildGoogleEvent u e) = true
  · rw [if_pos hi, if_pos hi]
  · rw [if_neg hi, if_neg hi]

theorem pass1Call_some (ins : GoogleEvent → Bool) (upd : String → GoogleEvent → Bool)
    (idx : List (String × String)) (ctr : Nat) (u : String) (e : IcsEvent) (gid : String)
    (h : dlookup idx u = some gid) :
    pass1Call ins upd idx ctr u e
      = CallEv.update gid (buildGoogleEvent u e)
          (if upd gid (buildGoogleEvent u e) = true then some gid else none) := by
  unfold pass1Call
  rw [h]
  dsimp only
  by_cases hu : upd gid (buildGoogleEvent u e) = true
  · rw [if_pos hu, if_pos hu]
  · rw [if_neg hu, if_neg hu]

theorem pass1Call_isInsertOf_ne (ins : GoogleEvent → Bool) (upd : String → GoogleEvent → Bool)
    (idx : List (String × String)) (ctr : Nat) (u' : String) (e' : IcsEvent) (u : String)
    (hne : u' ≠ u) : isInsertOf u (pass1Call ins upd idx ctr u' e') = false := by
  rcases h : dlookup idx u' with _ | gid
  · rw [pass1Call_none ins upd idx ctr u' e' h]
    by_cases hi : ins (buildGoogleEvent u' e') = true
    · rw [if_pos hi]
      simp [isInsertOf, buildGoogleEvent_uid, hne]
    · rw [if_neg hi]
      simp [isInsertOf, buildGoogleEvent_uid, hne]
  · rw [pass1Call_some ins upd idx ctr u' e' gid h]
    rfl

theorem pass1Step_u2g_ne (ins : GoogleEvent → Bool) (upd : String → GoogleEvent → Bool)
    (idx : List (String × String)) (st : P1) (u' : String) (e' : IcsEvent) (u : String)
    (hne : u ≠ u') :
    dlookup (pass1Step ins upd idx st u' e').uid_to_google_id u
      = dlookup st.uid_to_google_id u := by
  unfold pass1Step
  rcases h : dlookup idx u' with _ | gid
  · by_cases hi : ins (buildGoogleEvent u' e') <;>
      simp [hi, dlookup_dinsert_ne _ _ _ _ hne]
  · by_cases hu : upd gid (buildGoogleEvent u' e') <;>
      simp [hu, dlookup_dinsert_ne _ _ _ _ hne]

theorem pass1Step_u2g_self_none (ins : GoogleEvent → Bool) (upd : String → GoogleEvent → Bool)
    (idx : List (String × String)) (st : P1) (u : String) (e : IcsEvent)
    (h : dlookup idx u = none) :
    dlookup (pass1Step ins upd idx st u e).uid_to_google_id u
      = if ins (buildGoogleEvent u e) = true
        then some (freshId st.remote.counter)
        else dlookup st.uid_to_google_id u := by
  unfold pass1Step
  rw [h]
  dsimp only
  by_cases hi : ins (buildGoogleEvent u e) = true
  · rw [if_pos hi, if_pos hi]
    exact dlookup_dinsert_self _ _ _
  · rw [if_neg hi, if_neg hi]

theorem pass1_preserve_uid (ins : GoogleEvent → Bool) (upd : String → GoogleEvent → Bool)
    (idx : List (String × String)) (ms : List (String × IcsEvent)) (st : P1) (u : String)
    (hnot : u ∉ ms.map Prod.fst) :
    (pass1 ins upd idx ms st).calls.filter (isInsertOf u) = st.calls.filter (isInsertOf u) ∧
    dlookup (pass1 ins upd idx ms st).uid_to_google_id u = dlookup st.uid_to_google_id u := by
  induction ms generalizing st with
  | nil => simp [pass1]
  | cons p t ih =>
    rcases p with ⟨u', e'⟩
    simp only [List.map_cons, List.mem_cons] at hnot
    push_neg at hnot
    simp only [pass1]
    rcases ih (pass1Step ins upd idx st u' e') hnot.2 with ⟨ihc, ihl⟩
    refine ⟨?_, ?_⟩
    · rw [ihc, pass1Step_calls, List.filter_append]
      have : isInsertOf u (pass1Call ins upd idx st.remote.counter u' e') = false :=
        pass1Call_isInsertOf_ne _ _ _ _ _ _ _ (fun h => hnot.1 h.symm)
      simp [this]
    · rw [ihl]
      exact pass1Step_u2g_ne _ _ _ _ _ _ _ hnot.1

theorem pass1_new_master (ins : GoogleEvent → Bool) (upd : String → GoogleEvent → Bool)
    (idx : List (String × String)) (ms : List (String × IcsEvent)) (st : P1)
    (u : String) (e : IcsEvent)
    (hnd : (ms.map Prod.fst).Nodup) (hm : (u, e) ∈ ms)
    (hidx : dlookup idx u = none)
    (hc0 : st.calls.filter (isInsertOf u) = [])
    (hl0 : dlookup st.uid_to_google_id u = none) :
    ∃ r, (pass1 ins upd idx ms st).calls.filter (isInsertOf u)
        = [CallEv.insert (buildGoogleEvent u e) r] ∧
      ∀ gid, r = some gid →
        dlookup (pass1 ins upd idx ms st).uid_to_google_id u = some gid := by
  induction ms generalizing st with
  | nil => simp at hm
  | cons p t ih =>
    rcases p with ⟨u', e'⟩
    have hnd2 : u' ∉ t.map Prod.fst ∧ (t.map Prod.fst).Nodup := by
      rw [List.map_cons] at hnd
      exact List.nodup_cons.mp hnd
    rcases List.mem_cons.mp hm with h' | h'
    · have hu : u' = u := by
        rw [Prod.mk.injEq] at h'
        exact h'.1.symm
      have he : e' = e := by
        rw [Prod.mk.injEq] at h'
        exact h'.2.symm
      subst hu
      subst he
      have hntail : u' ∉ t.map Prod.fst := hnd2.1
      simp only [pass1]
      rcases pass1_preserve_uid ins upd idx t (pass1Step ins upd idx st u' e') u' hntail
        with ⟨hpc, hpl⟩
      rw [hpc, hpl, pass1Step_calls,
        pass1Call_none ins upd idx st.remote.counter u' e' hidx,
        pass1Step_u2g_self_none ins upd idx st u' e' hidx]
      by_cases hi : ins (buildGoogleEvent u' e') = true
      · rw [if_pos hi, if_pos hi]
        refine ⟨some (freshId st.remote.counter), ?_, ?_⟩
        · rw [List.filter_append, hc0]
          simp [isInsertOf, buildGoogleEvent_uid]
        · intro gid hg
          simp only [Option.some_inj] at hg
          subst hg
          rfl
      · rw [if_neg hi, if_neg hi]
        refine ⟨none, ?_, ?_⟩
        · rw [List.filter_append, hc0]
          simp [isInsertOf, buildGoogleEvent_uid]
        · intro gid hg
          simp at hg
    · have hne : u ≠ u' := by
        intro hq
        subst hq
        exact hnd2.1 (List.mem_map.mpr ⟨(u, e), h', rfl⟩)
      simp only [pass1]
      refine ih (pass1Step ins upd idx st u' e') ?_ h' ?_ ?_
      · exact hnd2.2
      · rw [pass1Step_calls, List.filter_append, hc0]
        have : isInsertOf u (pass1Call ins upd idx st.remote.counter u' e') = false :=
          pass1Call_isInsertOf_ne _ _ _ _ _ _ _ (Ne.symm hne)
        simp [this]
      · rw [pass1Step_u2g_ne _ _ _ _ _ _ _ hne]
        exact hl0

theorem pass1_old_master (ins : GoogleEvent → Bool) (upd : String → GoogleEvent → Bool)
    (idx : List (String × String)) (ms : List (String × IcsEvent)) (st : P1)
    (u : String) (e : IcsEvent) (g0 : String)
    (hnd : (ms.map Prod.fst).Nodup) (hm : (u, e) ∈ ms)
    (hidx : dlookup idx u = some g0)
    (hc0 : st.calls.filter (isInsertOf u) = []) :
    (pass1 ins upd idx ms st).calls.filter (isInsertOf u) = [] ∧
    ∃ r, CallEv.update g0 (buildGoogleEvent u e) r ∈ (pass1 ins upd idx ms st).calls := by
  induction ms generalizing st with
  | nil => simp at hm
  | cons p t ih =>
    rcases p with ⟨u', e'⟩
    have hnd2 : u' ∉ t.map Prod.fst ∧ (t.map Prod.fst).Nodup := by
      rw [List.map_cons] at hnd
      exact List.nodup_cons.mp hnd
    rcases List.mem_cons.mp hm with h' | h'
    · have hu : u' = u := by
        rw [Prod.mk.injEq] at h'
        exact h'.1.symm
      have he : e' = e := by
        rw [Prod.mk.injEq] at h'
        exact h'.2.symm
      subst hu
      subst he
      have hntail : u' ∉ t.map Prod.fst := hnd2.1
      simp only [pass1]
      rcases pass1_preserve_uid ins upd idx t (pass1Step ins upd idx st u' e') u' hntail
        with ⟨hpc, _⟩
      constructor
      · rw [hpc, pass1Step_calls, List.filter_append, hc0,
          pass1Call_some ins upd idx st.remote.counter u' e' g0 hidx]
        by_cases hu : upd g0 (buildGoogleEvent u' e') = true
        · rw [if_pos hu]
          simp [isInsertOf]
        · rw [if_neg hu]
          simp [isInsertOf]
      · rcases pass1_calls_append ins upd idx t (pass1Step ins upd idx st u' e') with ⟨l, hl⟩
        rw [hl, pass1Step_calls,
          pass1Call_some ins upd idx st.remote.counter u' e' g0 hidx]
        by_cases hu : upd g0 (buildGoogleEvent u' e') = true
        · rw [if_pos hu]
          exact ⟨some g0, by simp⟩
        · rw [if_neg hu]
          exact ⟨none, by simp⟩
    · have hne : u ≠ u' := by
        intro hq
        subst hq
        exact hnd2.1 (List.mem_map.mpr ⟨(u, e), h', rfl⟩)
      simp only [pass1]
      refine ih (pass1Step ins upd idx st u' e') ?_ h' ?_
      · exact hnd2.2
      · rw [pass1Step_calls, List.filter_append, hc0]
        have : isInsertOf u (pass1Call ins upd idx st.remote.counter u' e') = false :=
          pass1Call_isInsertOf_ne _ _ _ _ _ _ _ (Ne.symm hne)
        simp [this]

/-! ## Merge lemmas -/

theorem mergeIndex_preserve (m l : List (String × String)) (u v : String)
    (h : dlookup m u = some v) : dlookup (mergeIndex m l) u = some v := by
  induction l generalizing m with
  | nil => simpa [mergeIndex] using h
  | cons p t ih =>
    rcases p with ⟨u', g'⟩
    simp only [mergeIndex]
    refine ih _ ?_
    by_cases hs : (dlookup m u').isSome = true
    · rwa [if_pos hs]
    · rw [if_neg hs]
      have hne : u' ≠ u := by
        intro hq
        subst hq
        rw [h] at hs
        simp at hs
      rw [dlookup_dinsert_ne _ _ _ _ (Ne.symm hne)]
      exact h

/-! ## Run decomposition -/

/-- Pass-1 result of a run. -/
def p1Of (o : Oracle) (evs : List IcsEvent) (s0 : RemoteState) : P1 :=
  pass1 o.insertOk o.updateOk (buildIndex s0) (masterList evs) ⟨[], 0, 0, 0, [], [], s0⟩

/-- The uid → google-id map after the post-pass-1 merge. -/
def u2gOf (o : Oracle) (evs : List IcsEvent) (s0 : RemoteState) : List (String × String) :=
  mergeIndex (p1Of o evs s0).uid_to_google_id (buildIndex s0)

/-- Pass-2 result of a run. -/
def p2Of (o : Oracle) (evs : List IcsEvent) (s0 : RemoteState) : P2 :=
  pass2 o.patchOk o.instancesRes (u2gOf o evs s0) (exceptionList evs) ⟨0, 0, []⟩

/-- Sweep result of a run. -/
def swOf (o : Oracle) (evs : List IcsEvent) (s0 : RemoteState) : SweepSt :=
  sweep o.deleteOk (p1Of o evs s0).current_uids (buildIndex s0) ⟨0, [], (p1Of o evs s0).remote⟩

theorem sync_calls (o : Oracle) (evs : List IcsEvent) (s0 : RemoteState) :
    (sync_to_google o evs s0).calls
      = (p1Of o evs s0).calls ++ (p2Of o evs s0).calls ++ (swOf o evs s0).calls := rfl

theorem sync_u2g (o : Oracle) (evs : List IcsEvent) (s0 : RemoteState) :
    (sync_to_google o evs s0).uid_to_google_id = u2gOf o evs s0 := rfl

theorem sync_errors (o : Oracle) (evs : List IcsEvent) (s0 : RemoteState) :
    (sync_to_google o evs s0).errors = (p1Of o evs s0).errors := rfl

theorem sync_exceptions_updated (o : Oracle) (evs : List IcsEvent) (s0 : RemoteState) :
    (sync_to_google o evs s0).exceptions_updated = (p2Of o evs s0).exceptions_updated := rfl

theorem sync_exceptions_errors (o : Oracle) (evs : List IcsEvent) (s0 : RemoteState) :
    (sync_to_google o evs s0).exceptions_errors = (p2Of o evs s0).exceptions_errors := rfl

theorem sync_remote (o : Oracle) (evs : List IcsEvent) (s0 : RemoteState) :
    (sync_to_google o evs s0).remote = (swOf o evs s0).remote := rfl

theorem p1Of_current (o : Oracle) (evs : List IcsEvent) (s0 : RemoteState) :
    (p1Of o evs s0).current_uids = masterUids evs := by
  unfold p1Of
  rw [pass1_current]
  rfl

theorem sync_current_uids (o : Oracle) (evs : List IcsEvent) (s0 : RemoteState) :
    (sync_to_google o evs s0).current_uids = masterUids evs :=
  p1Of_current o evs s0

theorem p2Of_countP (o : Oracle) (evs : List IcsEvent) (s0 : RemoteState)
    (pred : CallEv → Bool) (hp : ∀ c, isP2CE c = true → pred c = false) :
    (p2Of o evs s0).calls.countP pred = 0 := by
  unfold p2Of
  rw [pass2_countP_inv pred hp]
  simp

theorem swOf_countP (o : Oracle) (evs : List IcsEvent) (s0 : RemoteState)
    (pred : CallEv → Bool) (hd : ∀ g b, pred (CallEv.delete g b) = false) :
    (swOf o evs s0).calls.countP pred = 0 := by
  unfold swOf
  rw [sweep_countP_inv pred hd]
  simp

theorem countP_zero_filter {l : List CallEv} {pred : CallEv → Bool}
    (h : l.countP pred = 0) : l.filter pred = [] := by
  rw [List.countP_eq_zero] at h
  exact List.filter_eq_nil_iff.mpr h

/-! ## C1: master reconciliation -/

/-- C1: a master whose uid is not indexed remotely gets exactly one create
call, and on success the returned id is recorded under its uid; a master whose
uid is indexed gets an update against the indexed id and never a create. -/
theorem claim1_master_reconciliation (o : Oracle) (evs : List IcsEvent) (s0 : RemoteState)
    (u : String) (e : IcsEvent) (hm : dlookup (masterList evs) u = some e) :
    (dlookup (buildIndex s0) u = none →
      ∃ r, (sync_to_google o evs s0).calls.filter (isInsertOf u)
          = [CallEv.insert (buildGoogleEvent u e) r] ∧
        ∀ gid, r = some gid →
          dlookup (sync_to_google o evs s0).uid_to_google_id u = some gid) ∧
    (∀ g0, dlookup (buildIndex s0) u = some g0 →
      (sync_to_google o evs s0).calls.filter (isInsertOf u) = [] ∧
      ∃ r, CallEv.update g0 (buildGoogleEvent u e) r ∈ (sync_to_google o evs s0).calls) := by
  have hmem := dlookup_some_mem hm
  have hnd := masterList_keys_nodup evs
  have h2 : (p2Of o evs s0).calls.filter (isInsertOf u) = [] :=
    countP_zero_filter (p2Of_countP o evs s0 _ (by intro c hc; cases c <;> simp_all [isP2CE, isInsertOf]))
  have h3 : (swOf o evs s0).calls.filter (isInsertOf u) = [] :=
    countP_zero_filter (swOf_countP o evs s0 _ (by intro g b; rfl))
  constructor
  · intro hidx
    rcases pass1_new_master o.insertOk o.updateOk (buildIndex s0) (masterList evs)
        ⟨[], 0, 0, 0, [], [], s0⟩ u e hnd hmem hidx (by simp) (by simp [dlookup])
      with ⟨r, hr1, hr2⟩
    refine ⟨r, ?_, ?_⟩
    · rw [sync_calls, List.filter_append, List.filter_append, h2, h3]
      unfold p1Of
      rw [hr1]
      simp
    · intro gid hg
      rw [sync_u2g]
      unfold u2gOf
      exact mergeIndex_preserve _ _ _ _ (hr2 gid hg)
  · intro g0 hidx
    rcases pass1_old_master o.insertOk o.updateOk (buildIndex s0) (masterList evs)
        ⟨[], 0, 0, 0, [], [], s0⟩ u e g0 hnd hmem hidx (by simp)
      with ⟨hf, r, hrm⟩
    constructor
    · rw [sync_calls, List.filter_append, List.filter_append, h2, h3]
      unfold p1Of
      rw [hf]
      simp
    · refine ⟨r, ?_⟩
      rw [sync_calls]
      exact List.mem_append.mpr (Or.inl (List.mem_append.mpr (Or.inl hrm)))

/-- All-success oracle used by the concrete scenarios. -/
def orcTrue : Oracle :=
  { insertOk := fun _ => true, updateOk := fun _ _ => true, patchOk := fun _ _ => true,
    deleteOk := fun _ => true, instancesRes := fun _ _ _ => some [] }

/-- A plain single master with uid `A`. -/
def evA : IcsEvent :=
  { uid := "A", summary := "s", description := "", location := "",
    start := PyTime.date 1, end_ := PyTime.date 1, rrule := none, exdate := [],
    recurrence_id := none }

theorem claim1_witness :
    (dlookup (buildIndex ⟨[], 0⟩) "A" = none →
      ∃ r, (sync_to_google orcTrue [evA] ⟨[], 0⟩).calls.filter (isInsertOf "A")
          = [CallEv.insert (buildGoogleEvent "A" evA) r] ∧
        ∀ gid, r = some gid →
          dlookup (sync_to_google orcTrue [evA] ⟨[], 0⟩).uid_to_google_id "A" = some gid) ∧
    (∀ g0, dlookup (buildIndex ⟨[], 0⟩) "A" = some g0 →
      (sync_to_google orcTrue [evA] ⟨[], 0⟩).calls.filter (isInsertOf "A") = [] ∧
      ∃ r, CallEv.update g0 (buildGoogleEvent "A" evA) r
          ∈ (sync_to_google orcTrue [evA] ⟨[], 0⟩).calls) :=
  claim1_master_reconciliation orcTrue [evA] ⟨[], 0⟩ "A" evA (by decide)

/-! ## C2 / C9: the deletion sweep -/

theorem countP_delete_entry (cur : List String) (l : List (String × String)) (u g : String)
    (hnd : (l.map Prod.fst).Nodup) (hm : (u, g) ∈ l)
    (huniq : ∀ p ∈ l, p.2 = g → p.1 = u) :
    l.countP (fun p => decide (p.1 ∉ cur) && (p.2 == g))
      = if u ∈ cur then 0 else 1 := by
  induction l with
  | nil => simp at hm
  | cons p t ih =>
    have hnd2 : p.1 ∉ t.map Prod.fst ∧ (t.map Prod.fst).Nodup := by
      rw [List.map_cons] at hnd
      exact List.nodup_cons.mp hnd
    rw [List.countP_cons]
    rcases List.mem_cons.mp hm with h' | h'
    · have ht0 : t.countP (fun p => decide (p.1 ∉ cur) && (p.2 == g)) = 0 := by
        rw [List.countP_eq_zero]
        intro q hq
        have hqg : q.2 ≠ g := by
          intro hqg
          have hq1 : q.1 = u := huniq q (List.mem_cons_of_mem _ hq) hqg
          have hpu : p.1 = u := by rw [← h']
          exact hnd2.1 (by
            rw [hpu, ← hq1]
            exact List.mem_map.mpr ⟨q, hq, rfl⟩)
        simp [hqg]
      have hp2 : p.2 = g := by rw [← h']
      have hp1 : p.1 = u := by rw [← h']
      rw [ht0, hp2, hp1]
      by_cases hu : u ∈ cur <;> simp [hu]
    · have hpg : p.2 ≠ g := by
        intro hpg
        have hp1 : p.1 = u := huniq p (List.mem_cons_self _ _) hpg
        have : u ∈ t.map Prod.fst := List.mem_map.mpr ⟨(u, g), h', rfl⟩
        exact hnd2.1 (hp1 ▸ this)
      rw [ih hnd2.2 h' (fun q hq hqg => huniq q (List.mem_cons_of_mem _ hq) hqg)]
      simp [hpg]

/-- C2 (amended): for a uid in the remote index, exactly one delete call is
issued against its indexed event id when the uid is not among the feed's
master uids, and none when it is.  (In the code the "seen" set is the set of
master uids, not the set of all feed uids.) -/
theorem claim2_deletion_sweep (o : Oracle) (evs : List IcsEvent) (s0 : RemoteState)
    (u g : String)
    (hids : (s0.events.map Prod.fst).Nodup)
    (hidx : dlookup (buildIndex s0) u = some g) :
    (u ∉ masterUids evs →
      ((sync_to_google o evs s0).calls.countP (isDeleteOfId g)) = 1) ∧
    (u ∈ masterUids evs →
      ((sync_to_google o evs s0).calls.countP (isDeleteOfId g)) = 0) := by
  have h1 : (p1Of o evs s0).calls.countP (isDeleteOfId g) = 0 := by
    unfold p1Of
    rw [pass1_countP_inv _ (fun b r => rfl) (fun g' b r => rfl)]
    simp
  have h2 : (p2Of o evs s0).calls.countP (isDeleteOfId g) = 0 :=
    p2Of_countP o evs s0 _ (by intro c hc; cases c <;> simp_all [isP2CE, isDeleteOfId])
  have huniq : ∀ p ∈ buildIndex s0, p.2 = g → p.1 = u := by
    intro p hp hpg
    have hlk : dlookup (buildIndex s0) p.1 = some p.2 := by
      refine mem_dlookup_of_nodup (buildIndex_keys_nodup s0) ?_
      rw [Prod.mk.eta]
      exact hp
    rw [hpg] at hlk
    exact buildIndex_inj s0 hids hlk hidx
  have hsw : (swOf o evs s0).calls.countP (isDeleteOfId g)
      = if u ∈ masterUids evs then 0 else 1 := by
    unfold swOf
    rw [sweep_delete_count]
    rw [p1Of_current]
    have := countP_delete_entry (masterUids evs) (buildIndex s0) u g
      (buildIndex_keys_nodup s0) (dlookup_some_mem hidx) huniq
    have heq : (fun p : String × String => decide (p.1 ∉ masterUids evs) && (p.2 == g))
        = fun p : String × String => decide (p.1 ∉ masterUids evs) && (p.2 == g) := rfl
    simp only [List.countP_nil]
    omega
  constructor
  · intro hu
    rw [sync_calls, List.countP_append, List.countP_append, h1, h2, hsw]
    simp [hu]
  · intro hu
    rw [sync_calls, List.countP_append, List.countP_append, h1, h2, hsw]
    simp [hu]

/-- An exception-only entry with uid `X`. -/
def excX : IcsEvent :=
  { uid := "X", summary := "x", description := "", location := "",
    start := PyTime.date 1, end_ := PyTime.date 1, rrule := none, exdate := [],
    recurrence_id := some (PyTime.date 1) }

/-- A remote event tagged with the sync marker and uid `X` under id `g0`. -/
def gevX : GoogleEvent :=
  { summary := "x", description := "", location := "",
    start := GTime.gdate 1, end_ := GTime.gdate 1, uid := "X",
    syncMarker := "exchange-sync", recurrence := none }

def s0X : RemoteState := ⟨[("g0", gevX)], 5⟩

/-- C2 counterexample: uid `X` is seen in the current feed (as an exception
occurrence) and is present in the remote index, yet the run issues a delete
for its remote event — refuting "no delete is ever attempted for a uid that is
present in both". -/
theorem claim2_counterexample :
    (∃ e ∈ [excX], e.uid = "X") ∧
    dlookup (buildIndex s0X) "X" = some "g0" ∧
    ((sync_to_google orcTrue [excX] s0X).calls.countP (isDeleteOfId "g0")) ≠ 0 := by
  refine ⟨⟨excX, by simp, rfl⟩, by decide, by decide⟩

theorem claim2_witness :
    ("X" ∉ masterUids [excX] →
      ((sync_to_google orcTrue [excX] s0X).calls.countP (isDeleteOfId "g0")) = 1) ∧
    ("X" ∈ masterUids [excX] →
      ((sync_to_google orcTrue [excX] s0X).calls.countP (isDeleteOfId "g0")) = 0) :=
  claim2_deletion_sweep orcTrue [excX] s0X "X" "g0" (by decide) (by decide)

/-- C9: a uid occurring in the feed only as exception occurrences does not
enter the current-uid set, so its remote event is swept: a delete is
attempted. -/
theorem claim9_exception_only_uid_deleted (o : Oracle) (evs : List IcsEvent)
    (s0 : RemoteState) (u g : String)
    (hexc : ∀ e ∈ evs, e.uid = u → e.recurrence_id.isSome = true)
    (hidx : dlookup (buildIndex s0) u = some g) :
    ∃ b, CallEv.delete g b ∈ (sync_to_google o evs s0).calls := by
  have hcur : u ∉ (p1Of o evs s0).current_uids := by
    rw [p1Of_current]
    intro hmem
    rcases List.mem_map.mp hmem with ⟨⟨u', e'⟩, hm, hfst⟩
    rcases masterList_mem hm with ⟨hu', hrid, hev⟩
    have : e'.uid = u := by
      rw [← hu']
      exact hfst
    have := hexc e' hev this
    rw [hrid] at this
    simp at this
  refine ⟨o.deleteOk g, ?_⟩
  rw [sync_calls]
  refine List.mem_append.mpr (Or.inr ?_)
  unfold swOf
  exact sweep_mem_delete o.deleteOk _ (buildIndex s0) ⟨0, [], (p1Of o evs s0).remote⟩ u g
    (dlookup_some_mem hidx) hcur

theorem claim9_witness :
    ∃ b, CallEv.delete "g0" b ∈ (sync_to_google orcTrue [excX] s0X).calls :=
  claim9_exception_only_uid_deleted orcTrue [excX] s0X "X" "g0" (by decide) (by decide)

/-! ## C3: delete failures -/

/-- A delete call that succeeded. -/
def isOkDelete : CallEv → Bool
  | .delete _ true => true
  | _ => false

theorem sweepStep_deleted (delOk : String → Bool) (cur : List String) (st : SweepSt)
    (u g : String) :
    (sweepStep delOk cur st u g).deleted
      = st.deleted + (if u ∈ cur then 0 else if delOk g = true then 1 else 0) := by
  unfold sweepStep
  by_cases hu : u ∈ cur
  · simp [hu]
  · by_cases hd : delOk g = true <;> simp [hu, hd]

theorem sweep_deleted_count (delOk : String → Bool) (cur : List String)
    (l : List (String × String)) (st : SweepSt) :
    (sweep delOk cur l st).calls.countP isOkDelete + st.deleted
      = st.calls.countP isOkDelete + (sweep delOk cur l st).deleted := by
  induction l generalizing st with
  | nil => simp [sweep]
  | cons p t ih =>
    rcases p with ⟨u, g⟩
    simp only [sweep]
    have h := ih (sweepStep delOk cur st u g)
    rw [sweepStep_calls, List.countP_append, sweepStep_deleted] at h
    by_cases hu : u ∈ cur
    · simp only [hu, if_true, List.countP_nil, Nat.add_zero] at h
      omega
    · by_cases hd : delOk g = true
      · rw [hd] at h
        simp [hu, isOkDelete] at h
        omega
      · have hf : delOk g = false := by simpa using hd
        rw [hf] at h
        simp [hu, isOkDelete] at h
        omega

/-- The `deleted` counter of a run counts exactly the successful delete calls
of its trace. -/
theorem sync_deleted_count (o : Oracle) (evs : List IcsEvent) (s0 : RemoteState) :
    (sync_to_google o evs s0).deleted
      = (sync_to_google o evs s0).calls.countP isOkDelete := by
  have h1 : (p1Of o evs s0).calls.countP isOkDelete = 0 := by
    unfold p1Of
    rw [pass1_countP_inv _ (fun b r => rfl) (fun g b r => rfl)]
    simp
  have h2 : (p2Of o evs s0).calls.countP isOkDelete = 0 :=
    p2Of_countP o evs s0 _ (by intro c hc; cases c <;> simp_all [isP2CE, isOkDelete])
  have h3 : (swOf o evs s0).calls.countP isOkDelete = (swOf o evs s0).deleted := by
    have h := sweep_deleted_count o.deleteOk (p1Of o evs s0).current_uids (buildIndex s0)
      ⟨0, [], (p1Of o evs s0).remote⟩
    simp only [List.countP_nil] at h
    unfold swOf
    omega
  have h4 : (sync_to_google o evs s0).deleted = (swOf o evs s0).deleted := rfl
  rw [sync_calls, List.countP_append, List.countP_append, h1, h2, h3, h4]
  omega

/-- Oracle whose deletes always fail. -/
def orcDelFail : Oracle :=
  { insertOk := fun _ => true, updateOk := fun _ _ => true, patchOk := fun _ _ => true,
    deleteOk := fun _ => false, instancesRes := fun _ _ _ => some [] }

/-- C3 counterexample: a stale event whose delete fails; the failure appears
in the trace but the run's error tally stays 0 — the failure is not counted. -/
theorem claim3_counterexample :
    CallEv.delete "g0" false ∈ (sync_to_google orcDelFail [] s0X).calls ∧
    (sync_to_google orcDelFail [] s0X).total_errors = 0 := by
  refine ⟨by decide, by decide⟩

/-- C3 (amended): a failed delete of a stale remote event is logged but not
added to the run's error tally, and it is non-fatal: every stale indexed uid
still gets its delete attempt, and the error tally and the created, updated
and exception-updated counters are the same as if every delete had succeeded.
The deleted counter counts exactly the successful delete calls of the trace. -/
theorem claim3_delete_failure_nonfatal (o : Oracle) (f : String → Bool)
    (evs : List IcsEvent) (s0 : RemoteState) (u g : String)
    (hidx : dlookup (buildIndex s0) u = some g)
    (hstale : u ∉ masterUids evs) :
    (sync_to_google { o with deleteOk := f } evs s0).total_errors
        = (sync_to_google o evs s0).total_errors ∧
    (sync_to_google { o with deleteOk := f } evs s0).created
        = (sync_to_google o evs s0).created ∧
    (sync_to_google { o with deleteOk := f } evs s0).updated
        = (sync_to_google o evs s0).updated ∧
    (sync_to_google { o with deleteOk := f } evs s0).exceptions_updated
        = (sync_to_google o evs s0).exceptions_updated ∧
    (sync_to_google { o with deleteOk := f } evs s0).deleted
        = (sync_to_google { o with deleteOk := f } evs s0).calls.countP isOkDelete ∧
    ∃ b, CallEv.delete g b ∈ (sync_to_google { o with deleteOk := f } evs s0).calls := by
  refine ⟨rfl, rfl, rfl, rfl, sync_deleted_count _ evs s0, ⟨f g, ?_⟩⟩
  rw [sync_calls]
  refine List.mem_append.mpr (Or.inr ?_)
  unfold swOf
  have hcur : u ∉ (p1Of { o with deleteOk := f } evs s0).current_uids := by
    rw [p1Of_current]
    exact hstale
  exact sweep_mem_delete f _ (buildIndex s0)
    ⟨0, [], (p1Of { o with deleteOk := f } evs s0).remote⟩ u g
    (dlookup_some_mem hidx) hcur

theorem claim3_witness :
    (sync_to_google { orcTrue with deleteOk := fun _ => false } [] s0X).total_errors
        = (sync_to_google orcTrue [] s0X).total_errors ∧
    (sync_to_google { orcTrue with deleteOk := fun _ => false } [] s0X).created
        = (sync_to_google orcTrue [] s0X).created ∧
    (sync_to_google { orcTrue with deleteOk := fun _ => false } [] s0X).updated
        = (sync_to_google orcTrue [] s0X).updated ∧
    (sync_to_google { orcTrue with deleteOk := fun _ => false } [] s0X).exceptions_updated
        = (sync_to_google orcTrue [] s0X).exceptions_updated ∧
    (sync_to_google { orcTrue with deleteOk := fun _ => false } [] s0X).deleted
        = (sync_to_google { orcTrue with deleteOk := fun _ => false } [] s0X).calls.countP
            isOkDelete ∧
    ∃ b, CallEv.delete "g0" b
        ∈ (sync_to_google { orcTrue with deleteOk := fun _ => false } [] s0X).calls :=
  claim3_delete_failure_nonfatal orcTrue (fun _ => false) [] s0X "X" "g0"
    (by decide) (by decide)

/-! ## C4: the error tally of the summary -/

/-- C4 counterexample: one exception error and zero master errors, yet the
summary's error count (`total_errors`, printed as "N errors") is 1, not the
count of errored masters (0). -/
theorem claim4_counterexample :
    (sync_to_google orcTrue [excX] ⟨[], 0⟩).errors = 0 ∧
    (sync_to_google orcTrue [excX] ⟨[], 0⟩).exceptions_errors = 1 ∧
    (sync_to_google orcTrue [excX] ⟨[], 0⟩).total_errors = 1 := by
  refine ⟨by decide, by decide, by decide⟩

/-- C4 (amended): the error count reported by the final summary is the sum of
the master create/update failures (exactly the failed insert/update calls of
the trace) and the exception-occurrence failures; the separately reported
exception figure counts successfully updated occurrences, and together the
two exception counters account for every exception entry. -/
theorem claim4_error_tally (o : Oracle) (evs : List IcsEvent) (s0 : RemoteState) :
    (sync_to_google o evs s0).total_errors
        = (sync_to_google o evs s0).errors + (sync_to_google o evs s0).exceptions_errors ∧
    (sync_to_google o evs s0).errors
        = (sync_to_google o evs s0).calls.countP isFailedMasterCall ∧
    (sync_to_google o evs s0).exceptions_updated + (sync_to_google o evs s0).exceptions_errors
        = (exceptionList evs).length := by
  refine ⟨rfl, ?_, ?_⟩
  · have h2 : (p2Of o evs s0).calls.countP isFailedMasterCall = 0 :=
      p2Of_countP o evs s0 _ (by intro c hc; cases c <;> simp_all [isP2CE, isFailedMasterCall])
    have h3 : (swOf o evs s0).calls.countP isFailedMasterCall = 0 :=
      swOf_countP o evs s0 _ (fun g b => rfl)
    have h1 : (p1Of o evs s0).calls.countP isFailedMasterCall = (p1Of o evs s0).errors := by
      unfold p1Of
      have := pass1_errors_count o.insertOk o.updateOk (buildIndex s0) (masterList evs)
        ⟨[], 0, 0, 0, [], [], s0⟩
      simpa using this
    rw [sync_calls, List.countP_append, List.countP_append, h1, h2, h3, sync_errors]
    omega
  · rw [sync_exceptions_updated, sync_exceptions_errors]
    unfold p2Of
    have := pass2_sum o.patchOk o.instancesRes (u2gOf o evs s0) (exceptionList evs) ⟨0, 0, []⟩
    simpa using this

/-! ## Remote-store evolution through pass 1 -/

theorem map_fst_update (l : List (String × GoogleEvent)) (g : String) (b : GoogleEvent) :
    (l.map (fun p => if p.1 = g then (g, b) else p)).map Prod.fst = l.map Prod.fst := by
  induction l with
  | nil => rfl
  | cons p t ih =>
    by_cases hp : p.1 = g <;> simp [hp, ih]

theorem updateEv_ids (s : RemoteState) (g : String) (b : GoogleEvent) :
    (updateEv s g b).events.map Prod.fst = s.events.map Prod.fst := by
  unfold updateEv
  exact map_fst_update s.events g b

theorem updateEv_mem_ne {s : RemoteState} {g : String} {b : GoogleEvent}
    {p : String × GoogleEvent} (hp : p ∈ s.events) (hne : p.1 ≠ g) :
    p ∈ (updateEv s g b).events := by
  unfold updateEv
  exact List.mem_map.mpr ⟨p, hp, by simp [hne]⟩

theorem updateEv_mem_target {s : RemoteState} {g0 : String} {x : GoogleEvent}
    (b : GoogleEvent) (hx : (g0, x) ∈ s.events) :
    (g0, b) ∈ (updateEv s g0 b).events := by
  unfold updateEv
  exact List.mem_map.mpr ⟨(g0, x), hx, by simp⟩

theorem insertEv_mem {s : RemoteState} {b : GoogleEvent} {p : String × GoogleEvent}
    (hp : p ∈ s.events) : p ∈ (insertEv s b).events := by
  unfold insertEv
  exact List.mem_append.mpr (Or.inl hp)

theorem insertEv_mem_new (s : RemoteState) (b : GoogleEvent) :
    (freshId s.counter, b) ∈ (insertEv s b).events := by
  simp [insertEv]

theorem pass1Step_remote_none (ins : GoogleEvent → Bool) (upd : String → GoogleEvent → Bool)
    (idx : List (String × String)) (st : P1) (u : String) (e : IcsEvent)
    (h : dlookup idx u = none) (hi : ins (buildGoogleEvent u e) = true) :
    (pass1Step ins upd idx st u e).remote = insertEv st.remote (buildGoogleEvent u e) := by
  unfold pass1Step
  rw [h]
  dsimp only
  rw [if_pos hi]

theorem pass1Step_remote_some (ins : GoogleEvent → Bool) (upd : String → GoogleEvent → Bool)
    (idx : List (String × String)) (st : P1) (u : String) (e : IcsEvent) (g0 : String)
    (h : dlookup idx u = some g0) (hu : upd g0 (buildGoogleEvent u e) = true) :
    (pass1Step ins upd idx st u e).remote = updateEv st.remote g0 (buildGoogleEvent u e) := by
  unfold pass1Step
  rw [h]
  dsimp only
  rw [if_pos hu]

theorem pass1Step_counter_le (ins : GoogleEvent → Bool) (upd : String → GoogleEvent → Bool)
    (idx : List (String × String)) (st : P1) (u : String) (e : IcsEvent)
    (hins : ∀ b, ins b = true) (hupd : ∀ g b, upd g b = true) :
    st.remote.counter ≤ (pass1Step ins upd idx st u e).remote.counter := by
  rcases h : dlookup idx u with _ | g0
  · rw [pass1Step_remote_none ins upd idx st u e h (hins _)]
    simp [insertEv]
  · rw [pass1Step_remote_some ins upd idx st u e g0 h (hupd _ _)]
    simp [updateEv]

theorem pass1_counter_le (ins : GoogleEvent → Bool) (upd : String → GoogleEvent → Bool)
    (idx : List (String × String)) (ms : List (String × IcsEvent)) (st : P1)
    (hins : ∀ b, ins b = true) (hupd : ∀ g b, upd g b = true) :
    st.remote.counter ≤ (pass1 ins upd idx ms st).remote.counter := by
  induction ms generalizing st with
  | nil => simp [pass1]
  | cons p t ih =>
    rcases p with ⟨u, e⟩
    simp only [pass1]
    exact le_trans (pass1Step_counter_le ins upd idx st u e hins hupd) (ih _)

theorem pass1Step_ids_sub (ins : GoogleEvent → Bool) (upd : String → GoogleEvent → Bool)
    (idx : List (String × String)) (st : P1) (u : String) (e : IcsEvent) (g : String)
    (hins : ∀ b, ins b = true) (hupd : ∀ g' b, upd g' b = true)
    (hg : g ∈ st.remote.events.map Prod.fst) :
    g ∈ (pass1Step ins upd idx st u e).remote.events.map Prod.fst := by
  rcases h : dlookup idx u with _ | g0
  · rw [pass1Step_remote_none ins upd idx st u e h (hins _)]
    simp only [insertEv, List.map_append, List.mem_append]
    exact Or.inl hg
  · rw [pass1Step_remote_some ins upd idx st u e g0 h (hupd _ _)]
    rwa [updateEv_ids]

theorem pass1_row_persists (ins : GoogleEvent → Bool) (upd : String → GoogleEvent → Bool)
    (idx : List (String × String)) (ms : List (String × IcsEvent)) (st : P1)
    (g : String) (ev : GoogleEvent)
    (hins : ∀ b, ins b = true) (hupd : ∀ g' b, upd g' b = true)
    (hrow : (g, ev) ∈ st.remote.events)
    (hno : ∀ u' ∈ ms.map Prod.fst, ∀ g', dlookup idx u' = some g' → g' ≠ g) :
    (g, ev) ∈ (pass1 ins upd idx ms st).remote.events := by
  induction ms generalizing st with
  | nil => simpa [pass1] using hrow
  | cons p t ih =>
    rcases p with ⟨u', e'⟩
    simp only [pass1]
    refine ih _ ?_ ?_
    · rcases h : dlookup idx u' with _ | g0
      · rw [pass1Step_remote_none ins upd idx st u' e' h (hins _)]
        exact insertEv_mem hrow
      · rw [pass1Step_remote_some ins upd idx st u' e' g0 h (hupd _ _)]
        refine updateEv_mem_ne hrow ?_
        have := hno u' (by simp) g0 h
        simpa using Ne.symm this
    · intro u'' hu'' g'' hg''
      exact hno u'' (List.mem_cons_of_mem _ (by simpa using hu'')) g'' hg''

theorem pass1_rows_fwd (ins : GoogleEvent → Bool) (upd : String → GoogleEvent → Bool)
    (idx : List (String × String)) (ms : List (String × IcsEvent)) (st : P1)
    (hins : ∀ b, ins b = true) (hupd : ∀ g' b, upd g' b = true) :
    ∀ p ∈ (pass1 ins upd idx ms st).remote.events,
      p ∈ st.remote.events ∨ ∃ q ∈ ms, p.2 = buildGoogleEvent q.1 q.2 := by
  induction ms generalizing st with
  | nil =>
    intro p hp
    exact Or.inl (by simpa [pass1] using hp)
  | cons q t ih =>
    rcases q with ⟨u', e'⟩
    intro p hp
    simp only [pass1] at hp
    rcases ih (pass1Step ins upd idx st u' e') p hp with h' | h'
    · rcases hidx : dlookup idx u' with _ | g0
      · rw [pass1Step_remote_none ins upd idx st u' e' hidx (hins _)] at h'
        unfold insertEv at h'
        rcases List.mem_append.mp h' with h'' | h''
        · exact Or.inl h''
        · simp only [List.mem_singleton] at h''
          refine Or.inr ⟨(u', e'), List.mem_cons_self _ _, ?_⟩
          rw [h'']
      · rw [pass1Step_remote_some ins upd idx st u' e' g0 hidx (hupd _ _)] at h'
        unfold updateEv at h'
        rcases List.mem_map.mp h' with ⟨orig, ho, hf⟩
        by_cases hog : orig.1 = g0
        · rw [if_pos hog] at hf
          refine Or.inr ⟨(u', e'), List.mem_cons_self _ _, ?_⟩
          rw [← hf]
        · rw [if_neg hog] at hf
          exact Or.inl (hf ▸ ho)
    · rcases h' with ⟨q, hq, hpq⟩
      exact Or.inr ⟨q, List.mem_cons_of_mem _ hq, hpq⟩

theorem pass1_master_row (ins : GoogleEvent → Bool) (upd : String → GoogleEvent → Bool)
    (idx : List (String × String)) (ms : List (String × IcsEvent)) (st : P1)
    (u : String) (e : IcsEvent) (forbidden : List String)
    (hins : ∀ b, ins b = true) (hupd : ∀ g b, upd g b = true)
    (hnd : (ms.map Prod.fst).Nodup) (hm : (u, e) ∈ ms)
    (hidxids : ∀ u' g', dlookup idx u' = some g' → g' ∈ st.remote.events.map Prod.fst)
    (hinj : ∀ u1 u2 g, dlookup idx u1 = some g → dlookup idx u2 = some g → u1 = u2)
    (hfreshidx : ∀ u' g', dlookup idx u' = some g' → ∀ n, st.remote.counter ≤ n → g' ≠ freshId n)
    (hforb : ∀ n, st.remote.counter ≤ n → freshId n ∉ forbidden) :
    ∃ g, (g, buildGoogleEvent u e) ∈ (pass1 ins upd idx ms st).remote.events ∧
      (dlookup idx u = some g ∨ g ∉ forbidden) := by
  induction ms generalizing st with
  | nil => simp at hm
  | cons p t ih =>
    rcases p with ⟨u', e'⟩
    have hnd2 : u' ∉ t.map Prod.fst ∧ (t.map Prod.fst).Nodup := by
      rw [List.map_cons] at hnd
      exact List.nodup_cons.mp hnd
    rcases List.mem_cons.mp hm with h' | h'
    · have hu : u' = u := by
        rw [Prod.mk.injEq] at h'
        exact h'.1.symm
      have he : e' = e := by
        rw [Prod.mk.injEq] at h'
        exact h'.2.symm
      subst hu
      subst he
      simp only [pass1]
      rcases hidx : dlookup idx u' with _ | g0
      · refine ⟨freshId st.remote.counter, ?_, Or.inr (hforb _ (le_refl _))⟩
        refine pass1_row_persists ins upd idx t _ _ _ hins hupd ?_ ?_
        · rw [pass1Step_remote_none ins upd idx st u' e' hidx (hins _)]
          exact insertEv_mem_new st.remote (buildGoogleEvent u' e')
        · intro u'' hu'' g'' hg''
          exact hfreshidx u'' g'' hg'' st.remote.counter (le_refl _)
      · refine ⟨g0, ?_, Or.inl rfl⟩
        refine pass1_row_persists ins upd idx t _ _ _ hins hupd ?_ ?_
        · rw [pass1Step_remote_some ins upd idx st u' e' g0 hidx (hupd _ _)]
          have hid := hidxids u' g0 hidx
          rcases List.mem_map.mp hid with ⟨orig, ho, hf⟩
          have : (g0, orig.2) ∈ st.remote.events := by
            have : orig = (g0, orig.2) := by
              rw [Prod.ext_iff]
              exact ⟨hf, rfl⟩
            rw [← this]
            exact ho
          exact updateEv_mem_target _ this
        · intro u'' hu'' g'' hg'' hq
          rw [hq] at hg''
          have hequ : u'' = u' := hinj u'' u' g0 hg'' hidx
          rw [hequ] at hu''
          exact hnd2.1 hu''
    · have hne : u ≠ u' := by
        intro hq
        subst hq
        exact hnd2.1 (List.mem_map.mpr ⟨(u, e), h', rfl⟩)
      simp only [pass1]
      refine ih _ hnd2.2 h' ?_ ?_ ?_
      · intro u'' g'' hg''
        exact pass1Step_ids_sub ins upd idx st u' e' g'' hins hupd (hidxids u'' g'' hg'')
      · intro u'' g'' hg'' n hn
        exact hfreshidx u'' g'' hg'' n
          (le_trans (pass1Step_counter_le ins upd idx st u' e' hins hupd) hn)
      · intro n hn
        exact hforb n (le_trans (pass1Step_counter_le ins upd idx st u' e' hins hupd) hn)

/-! ## Remote-store evolution through the sweep -/

theorem deleteEv_gone (s : RemoteState) (g : String) :
    ∀ ev, (g, ev) ∉ (deleteEv s g).events := by
  intro ev hm
  unfold deleteEv at hm
  rcases List.mem_filter.mp hm with ⟨_, hcond⟩
  simp at hcond

theorem deleteEv_mem_ne {s : RemoteState} {g : String} {p : String × GoogleEvent}
    (hp : p ∈ s.events) (hne : p.1 ≠ g) : p ∈ (deleteEv s g).events := by
  unfold deleteEv
  exact List.mem_filter.mpr ⟨hp, by simp [hne]⟩

theorem sweepStep_remote_sub (delOk : String → Bool) (cur : List String) (st : SweepSt)
    (u g : String) (p : String × GoogleEvent)
    (hp : p ∈ (sweepStep delOk cur st u g).remote.events) : p ∈ st.remote.events := by
  unfold sweepStep at hp
  by_cases hu : u ∈ cur
  · rw [if_pos hu] at hp
    exact hp
  · rw [if_neg hu] at hp
    by_cases hd : delOk g = true
    · rw [if_pos hd] at hp
      unfold deleteEv at hp
      exact (List.mem_filter.mp hp).1
    · rw [if_neg hd] at hp
      exact hp

theorem sweep_remote_sub (delOk : String → Bool) (cur : List String)
    (l : List (String × String)) (st : SweepSt) (p : String × GoogleEvent)
    (hp : p ∈ (sweep delOk cur l st).remote.events) : p ∈ st.remote.events := by
  induction l generalizing st with
  | nil => simpa [sweep] using hp
  | cons q t ih =>
    rcases q with ⟨u, g⟩
    simp only [sweep] at hp
    exact sweepStep_remote_sub delOk cur st u g p (ih _ hp)

theorem sweep_row_keeps (delOk : String → Bool) (cur : List String)
    (l : List (String × String)) (st : SweepSt) (g : String) (ev : GoogleEvent)
    (hrow : (g, ev) ∈ st.remote.events)
    (hsafe : ∀ p ∈ l, p.2 ≠ g ∨ p.1 ∈ cur) :
    (g, ev) ∈ (sweep delOk cur l st).remote.events := by
  induction l generalizing st with
  | nil => simpa [sweep] using hrow
  | cons q t ih =>
    rcases q with ⟨u, g'⟩
    simp only [sweep]
    refine ih _ ?_ (fun p hp => hsafe p (List.mem_cons_of_mem _ hp))
    unfold sweepStep
    by_cases hu : u ∈ cur
    · rw [if_pos hu]
      exact hrow
    · rw [if_neg hu]
      have hgg : g' ≠ g := by
        rcases hsafe (u, g') (List.mem_cons_self _ _) with h | h
        · exact h
        · exact absurd h hu
      by_cases hd : delOk g' = true
      · rw [if_pos hd]
        exact deleteEv_mem_ne hrow (by simpa using Ne.symm hgg)
      · rw [if_neg hd]
        exact hrow

theorem sweep_row_gone (delOk : String → Bool) (cur : List String)
    (l : List (String × String)) (st : SweepSt) (u0 g : String)
    (hdel : delOk g = true) (hm : (u0, g) ∈ l) (hcur : u0 ∉ cur) :
    ∀ ev, (g, ev) ∉ (sweep delOk cur l st).remote.events := by
  induction l generalizing st with
  | nil => simp at hm
  | cons q t ih =>
    rcases List.mem_cons.mp hm with h' | h'
    · intro ev hmem
      simp only [sweep] at hmem
      have hsub := sweep_remote_sub delOk cur t _ _ hmem
      have hq1 : q.1 = u0 := by rw [← h']
      have hq2 : q.2 = g := by rw [← h']
      unfold sweepStep at hsub
      rw [hq1, hq2, if_neg hcur, if_pos hdel] at hsub
      exact deleteEv_gone st.remote g ev hsub
    · intro ev hmem
      simp only [sweep] at hmem
      exact ih _ h' ev hmem

/-! ## C8: idempotence of reconciliation -/

/-- C8 counterexample: a master with an empty uid.  The first run succeeds in
full (every call in its trace succeeded), but the created remote event's uid
tag is empty so the rebuilt index skips it, and the second run on the
resulting remote state issues a create again. -/
theorem claim8_counterexample :
    ((sync_to_google orcTrue
        [{ uid := "", summary := "s", description := "", location := "",
           start := PyTime.date 1, end_ := PyTime.date 1, rrule := none, exdate := [],
           recurrence_id := none }] ⟨[], 0⟩).calls.all callOk = true) ∧
    ((sync_to_google orcTrue
        [{ uid := "", summary := "s", description := "", location := "",
           start := PyTime.date 1, end_ := PyTime.date 1, rrule := none, exdate := [],
           recurrence_id := none }]
        (sync_to_google orcTrue
          [{ uid := "", summary := "s", description := "", location := "",
             start := PyTime.date 1, end_ := PyTime.date 1, rrule := none, exdate := [],
             recurrence_id := none }] ⟨[], 0⟩).remote).calls.countP isInsertCE ≠ 0) := by
  refine ⟨by decide, by decide⟩

/-- C8 (amended): when every remote call succeeds, every master uid is
non-empty, the marker-tagged rows of the starting store carry pairwise
distinct uids and pairwise distinct event ids, and freshly allocated ids do
not collide with existing ones, then a second run of the reconciler on the
identical feed against the resulting remote state issues zero creates and
zero deletes. -/
theorem claim8_idempotent (o : Oracle) (evs : List IcsEvent) (s0 : RemoteState)
    (hins : ∀ b, o.insertOk b = true)
    (hupd : ∀ g b, o.updateOk g b = true)
    (hdel : ∀ g, o.deleteOk g = true)
    (hmu : ∀ e ∈ evs, e.recurrence_id = none → e.uid ≠ "")
    (htag : (taggedUidsOf s0.events).Nodup)
    (hids : (s0.events.map Prod.fst).Nodup)
    (hfresh : ∀ n, s0.counter ≤ n → freshId n ∉ s0.events.map Prod.fst) :
    ((sync_to_google o evs (sync_to_google o evs s0).remote).calls.countP isInsertCE = 0) ∧
    ((sync_to_google o evs (sync_to_google o evs s0).remote).calls.countP isDeleteCE = 0) := by
  have hcur : (p1Of o evs s0).current_uids = masterUids evs := p1Of_current o evs s0
  -- every master uid owns a tagged row in the post-run store
  have hB1 : ∀ u e, (u, e) ∈ masterList evs →
      ∃ g, (g, buildGoogleEvent u e) ∈ (sync_to_google o evs s0).remote.events := by
    intro u e hm
    have hrow := pass1_master_row o.insertOk o.updateOk (buildIndex s0) (masterList evs)
      ⟨[], 0, 0, 0, [], [], s0⟩ u e (s0.events.map Prod.fst) hins hupd
      (masterList_keys_nodup evs) hm
      (fun u' g' h => buildIndex_mem_ids s0 h)
      (fun u1 u2 g h1 h2 => buildIndex_inj s0 hids h1 h2)
      (fun u' g' h n hn hq => hfresh n hn (hq ▸ buildIndex_mem_ids s0 h))
      (fun n hn => hfresh n hn)
    rcases hrow with ⟨g, hg, hcase⟩
    refine ⟨g, ?_⟩
    rw [sync_remote]
    unfold swOf
    refine sweep_row_keeps o.deleteOk _ (buildIndex s0) _ g _ hg ?_
    intro p hp
    rcases hcase with hcase | hcase
    · by_cases hpg : p.2 = g
      · right
        have hlk : dlookup (buildIndex s0) p.1 = some p.2 := by
          refine mem_dlookup_of_nodup (buildIndex_keys_nodup s0) ?_
          rw [Prod.mk.eta]
          exact hp
        rw [hpg] at hlk
        have : p.1 = u := buildIndex_inj s0 hids hlk hcase
        rw [hcur, this]
        exact List.mem_map.mpr ⟨(u, e), hm, rfl⟩
      · exact Or.inl hpg
    · left
      intro hpg
      have : p.2 ∈ s0.events.map Prod.fst := by
        have hlk : dlookup (buildIndex s0) p.1 = some p.2 := by
          refine mem_dlookup_of_nodup (buildIndex_keys_nodup s0) ?_
          rw [Prod.mk.eta]
          exact hp
        exact buildIndex_mem_ids s0 hlk
      rw [hpg] at this
      exact hcase this
  -- every tagged row of the post-run store carries a master uid
  have hB2 : ∀ gg evv, (gg, evv) ∈ (sync_to_google o evs s0).remote.events →
      evv.syncMarker = SYNC_MARKER → evv.uid ≠ "" → evv.uid ∈ masterUids evs := by
    intro gg evv hmem hsm hne
    have hp1 : (gg, evv) ∈ (p1Of o evs s0).remote.events := by
      rw [sync_remote] at hmem
      unfold swOf at hmem
      exact sweep_remote_sub _ _ _ _ _ hmem
    rcases pass1_rows_fwd o.insertOk o.updateOk (buildIndex s0) (masterList evs)
        ⟨[], 0, 0, 0, [], [], s0⟩ hins hupd (gg, evv) hp1 with hold | hnew
    · by_cases hu : evv.uid ∈ masterUids evs
      · exact hu
      · exfalso
        have hlk : dlookup (buildIndex s0) evv.uid = some gg :=
          indexFold_lookup_unique s0.events htag [] gg evv hold hsm hne
        have hgone := sweep_row_gone o.deleteOk (p1Of o evs s0).current_uids (buildIndex s0)
          ⟨0, [], (p1Of o evs s0).remote⟩ evv.uid gg (hdel gg) (dlookup_some_mem hlk)
          (by rw [hcur]; exact hu)
        refine hgone evv ?_
        rw [sync_remote] at hmem
        unfold swOf at hmem
        exact hmem
    · rcases hnew with ⟨q, hq, hpq⟩
      simp only at hpq
      rw [hpq, buildGoogleEvent_uid]
      exact List.mem_map.mpr ⟨q, hq, rfl⟩
  -- the second run's index covers exactly the master uids
  have hC1 : ∀ p : String × IcsEvent, p ∈ masterList evs →
      ¬ dlookup (buildIndex (sync_to_google o evs s0).remote) p.1 = none := by
    intro p hp
    rcases hB1 p.1 p.2 (by rw [Prod.mk.eta]; exact hp) with ⟨g, hg⟩
    have hne : p.1 ≠ "" := by
      rcases masterList_mem (by rw [← Prod.mk.eta (p := p)] at hp; exact hp)
        with ⟨hu, hrid, hev⟩
      rw [hu]
      exact hmu p.2 hev hrid
    have h0 := indexFold_mem_isSome (sync_to_google o evs s0).remote.events [] g
      (buildGoogleEvent p.1 p.2) hg rfl (by rw [buildGoogleEvent_uid]; exact hne)
    rw [buildGoogleEvent_uid] at h0
    have h1 : (dlookup (buildIndex (sync_to_google o evs s0).remote) p.1).isSome = true := h0
    intro hq
    rw [hq] at h1
    simp at h1
  have hC2 : ∀ w g2, dlookup (buildIndex (sync_to_google o evs s0).remote) w = some g2 →
      w ∈ masterUids evs := by
    intro w g2 hw
    rcases buildIndex_lookup_some _ hw with ⟨evv, hmem, hsm, huid, hne⟩
    have := hB2 g2 evv hmem hsm (huid ▸ hne)
    rw [huid] at this
    exact this
  constructor
  · rw [sync_calls, List.countP_append, List.countP_append]
    have h1 : (p1Of o evs (sync_to_google o evs s0).remote).calls.countP isInsertCE = 0 := by
      unfold p1Of
      rw [pass1_insert_count]
      simp only [List.countP_nil, Nat.zero_add]
      rw [List.countP_eq_zero]
      intro p hp
      simpa using hC1 p hp
    have h2 : (p2Of o evs (sync_to_google o evs s0).remote).calls.countP isInsertCE = 0 :=
      p2Of_countP _ _ _ _ (by intro c hc; cases c <;> simp_all [isP2CE, isInsertCE])
    have h3 : (swOf o evs (sync_to_google o evs s0).remote).calls.countP isInsertCE = 0 :=
      swOf_countP _ _ _ _ (fun g b => rfl)
    rw [h1, h2, h3]
  · rw [sync_calls, List.countP_append, List.countP_append]
    have h1 : (p1Of o evs (sync_to_google o evs s0).remote).calls.countP isDeleteCE = 0 := by
      unfold p1Of
      rw [pass1_countP_inv _ (fun b r => rfl) (fun g b r => rfl)]
      simp
    have h2 : (p2Of o evs (sync_to_google o evs s0).remote).calls.countP isDeleteCE = 0 :=
      p2Of_countP _ _ _ _ (by intro c hc; cases c <;> simp_all [isP2CE, isDeleteCE])
    have h3 : (swOf o evs (sync_to_google o evs s0).remote).calls.countP isDeleteCE = 0 := by
      unfold swOf
      rw [sweep_calls_id]
      · simp
      · intro p hp
        rw [p1Of_current]
        refine hC2 p.1 p.2 ?_
        refine mem_dlookup_of_nodup (buildIndex_keys_nodup _) ?_
        rw [Prod.mk.eta]
        exact hp
    rw [h1, h2, h3]

theorem claim8_witness :
    ((sync_to_google orcTrue [evA] (sync_to_google orcTrue [evA] ⟨[], 0⟩).remote).calls.countP
        isInsertCE = 0) ∧
    ((sync_to_google orcTrue [evA] (sync_to_google orcTrue [evA] ⟨[], 0⟩).remote).calls.countP
        isDeleteCE = 0) :=
  claim8_idempotent orcTrue [evA] ⟨[], 0⟩ (fun _ => rfl) (fun _ _ => rfl) (fun _ => rfl)
    (by decide) (by decide) (by decide) (by intro n _ h; simp at h)
